import Mathlib

/-!
Shallow embedding of the MWR dense-matrix library (src/src/matrix.rs,
src/src/algorithms.rs, src/src/error.rs) and proofs about it.

Modelling conventions:
* `f64` values are modelled as exact rationals `ℚ`; all control flow of the
  source (bounds checks, zero-pivot checks, error propagation) is preserved.
* Fallible Rust code returning `Result<_, MathMatrixError>` is modelled by the
  `Outcome` monad below.  A Rust panic (out-of-range `Vec` index, `.unwrap()`
  on an `Err`) is modelled by the third constructor `fault`, which propagates
  through every bind exactly as an unwinding panic would.
* Matrices are column-major flat lists: element `(row, col)` lives at flat
  index `col * rows + row`, exactly as in the source.
-/

namespace MWR

/-- Error kinds of `MathMatrixErrorKind` in src/src/error.rs. -/
inductive MathMatrixErrorKind where
  | FailedToInitialize
  | OutOfBoundary
  | SizeMismatch
  | FailedToDecompose
  | OperationNotPermitted
deriving DecidableEq

/-- Error value of `MathMatrixError` in src/src/error.rs: a kind plus a message. -/
structure MathMatrixError where
  kind : MathMatrixErrorKind
  message : String
deriving DecidableEq

/-- Result of running a piece of Rust code: a value, a returned error value, or
a runtime panic (`fault`). -/
inductive Outcome (α : Type) where
  | ok (a : α)
  | err (e : MathMatrixError)
  | fault
deriving DecidableEq

/-- Sequencing of Rust statements: errors and panics propagate. -/
def Outcome.bind {α β : Type} : Outcome α → (α → Outcome β) → Outcome β
  | .ok a, f => f a
  | .err e, _ => .err e
  | .fault, _ => .fault

instance : Monad Outcome where
  pure := Outcome.ok
  bind := Outcome.bind

instance : LawfulMonad Outcome :=
  LawfulMonad.mk' _
    (by intro α x; cases x <;> rfl)
    (by intro α β x f; rfl)
    (by intro α β γ x f g; cases x <;> rfl)

/-- Rust `.unwrap()` applied to a fallible result: an error becomes a panic. -/
def unwrapO {α : Type} : Outcome α → Outcome α
  | .ok a => .ok a
  | .err _ => .fault
  | .fault => .fault

/-- The matrix type of src/src/matrix.rs: dense, column-major flat storage. -/
structure Matrix where
  rows : Nat
  cols : Nat
  data : List ℚ
deriving DecidableEq

/-- `Matrix::get_size`. -/
def Matrix.get_size (m : Matrix) : Nat × Nat := (m.rows, m.cols)

/-- `Matrix::new(rows, cols, data)` from src/src/matrix.rs (the message typo
"lager" is the source's). -/
def Matrix.new (rows cols : Nat) (data : List ℚ) : Outcome Matrix :=
  if rows * cols = 0 then
    .err ⟨.FailedToInitialize, "Rows and columns must be lager than 0"⟩
  else if rows * cols = data.length then .ok ⟨rows, cols, data⟩
  else
    .err ⟨.FailedToInitialize,
      "Size of data != rows * cols: " ++ toString data.length ++ " != " ++
        toString (rows * cols)⟩

/-- `Matrix::zeros(rows, cols)`. -/
def Matrix.zeros (rows cols : Nat) : Outcome Matrix :=
  Matrix.new rows cols (List.replicate (rows * cols) 0)

/-- Data list built by the fill loops of `Matrix::identity`: start from a zero
vector of length `rows * cols` and set `data[i + rows * j]` for `j` in
`0..cols`, `i` in `0..rows`. -/
def identityData (rows cols : Nat) : List ℚ :=
  (List.range cols).foldl
    (fun d j =>
      (List.range rows).foldl
        (fun d i => d.set (i + rows * j) (if i = j then (1 : ℚ) else 0)) d)
    (List.replicate (rows * cols) 0)

/-- `Matrix::identity(rows, cols)`: fill the data then call `new`. -/
def Matrix.identity (rows cols : Nat) : Outcome Matrix :=
  Matrix.new rows cols (identityData rows cols)

/-- `Matrix::set_value(row, col, value)`.  The first two branches are the
source's strict `>` bound checks; the final branch models the panic of the
Rust `Vec` indexed write when the flat index is out of range. -/
def Matrix.set_value (m : Matrix) (row col : Nat) (value : ℚ) : Outcome Matrix :=
  if row > m.rows then
    .err ⟨.OutOfBoundary, "Row " ++ toString row ++ " > " ++ toString m.rows⟩
  else if col > m.cols then
    .err ⟨.OutOfBoundary, "Column " ++ toString col ++ " > " ++ toString m.cols⟩
  else if col * m.rows + row < m.data.length then
    .ok ⟨m.rows, m.cols, m.data.set (col * m.rows + row) value⟩
  else .fault

/-- `Matrix::get_value(row, col)`.  Same bound checks; the `none` case models
the panic of the Rust `Vec` indexed read. -/
def Matrix.get_value (m : Matrix) (row col : Nat) : Outcome ℚ :=
  if row > m.rows then
    .err ⟨.OutOfBoundary, "Row " ++ toString row ++ " > " ++ toString m.rows⟩
  else if col > m.cols then
    .err ⟨.OutOfBoundary, "Column " ++ toString col ++ " > " ++ toString m.cols⟩
  else
    match m.data[col * m.rows + row]? with
    | some v => .ok v
    | none => .fault

/-- Rust `set_value(...).ok()`: a returned error is discarded (the matrix is
left unchanged) but a panic still unwinds. -/
def Matrix.set_value_ignore (m : Matrix) (row col : Nat) (v : ℚ) : Outcome Matrix :=
  match m.set_value row col v with
  | .ok m2 => .ok m2
  | .err _ => .ok m
  | .fault => .fault

/-- `Matrix::multiplied_by_matrix(&self, other)`: size check, then the triple
loop accumulating `sum += self[i,k] * other[k,j]` into a fresh matrix. -/
def Matrix.multiplied_by_matrix (a other : Matrix) : Outcome Matrix :=
  if a.cols ≠ other.rows then
    .err ⟨.SizeMismatch, "Multiplication allowed for NxM * MxO"⟩
  else do
    let out0 ← unwrapO (Matrix.new a.rows other.cols
      (List.replicate (a.rows * other.cols) 0))
    (List.range a.rows).foldlM (fun out i =>
      (List.range other.cols).foldlM (fun out j => do
        let sum ← (List.range a.cols).foldlM (fun s k => do
          let x ← a.get_value i k
          let y ← other.get_value k j
          pure (s + x * y)) (0 : ℚ)
        unwrapO (out.set_value i j sum)) out) out0

/-- `Matrix::transposed`: fresh `cols × rows` zero matrix, then copy entry
`(i, j)` to `(j, i)`; the write result is discarded with `.ok()`. -/
def Matrix.transposed (a : Matrix) : Outcome Matrix := do
  let t0 ← unwrapO (Matrix.zeros a.cols a.rows)
  (List.range a.cols).foldlM (fun t j =>
    (List.range a.rows).foldlM (fun t i => do
      let v ← unwrapO (a.get_value i j)
      t.set_value_ignore j i v) t) t0

/-- Body of the elimination loop of `Matrix::decompose` at step `(i, j)`:
read numerator and denominator, fail on a zero pivot, record the multiplier in
`L` and left-multiply `U` by the elementary matrix. -/
def Matrix.decomposeStep (m : Matrix) (st : Matrix × Matrix) (i j : Nat) :
    Outcome (Matrix × Matrix) := do
  let numerator ← st.2.get_value i j
  let denominator ← st.2.get_value j j
  if denominator = 0 then
    Outcome.err ⟨.FailedToDecompose, "Found zero"⟩
  else do
    let multiplier := numerator / denominator
    let l2 ← st.1.set_value i j multiplier
    let tmp ← Matrix.identity m.rows m.cols
    let tmp2 ← tmp.set_value i j (-multiplier)
    let u2 ← tmp2.multiplied_by_matrix st.2
    pure (l2, u2)

/-- `Matrix::decompose`: squareness check, `u = self.clone()`,
`l = identity`, then the double elimination loop `for i in 1..rows`,
`for j in 0..i`. -/
def Matrix.decompose (m : Matrix) : Outcome (Matrix × Matrix) :=
  if m.get_size.1 ≠ m.get_size.2 then
    .err ⟨.OperationNotPermitted, "LU decomposition allowed only for square matrices"⟩
  else do
    let l0 ← Matrix.identity m.get_size.1 m.get_size.2
    (List.range' 1 (m.get_size.1 - 1)).foldlM (fun st i =>
      (List.range i).foldlM (fun st j => m.decomposeStep st i j) st) (l0, m)

/-- `Matrix::invert`: decompose, forward substitution for `Y` (`L·Y = I`),
then back substitution for `X` (`U·X = Y`), reading the divider
`U[row, row]` without any zero check. -/
def Matrix.invert (m : Matrix) : Outcome Matrix := do
  let size := m.rows
  let lu ← m.decompose
  let y0 ← Matrix.identity size size
  let y_mat ← (List.range size).foldlM (fun y col =>
      (List.range' (col + 1) (size - (col + 1))).foldlM (fun y row => do
        let l0 ← lu.1.get_value row col
        let elem ← (List.range' (col + 1) (row - (col + 1))).foldlM (fun e i => do
            let lri ← lu.1.get_value row i
            let yic ← y.get_value i col
            pure (e + -lri * yic)) (-l0)
        y.set_value_ignore row col elem) y) y0
  let x0 ← Matrix.zeros size size
  (List.range size).foldlM (fun x col =>
      ((List.range size).reverse).foldlM (fun x row => do
        let yrc ← y_mat.get_value row col
        let divider ← lu.2.get_value row row
        let elem ← (List.range' (row + 1) (size - (row + 1))).foldlM (fun e i => do
            let uri ← lu.2.get_value row i
            let xic ← x.get_value i col
            pure (e + -uri * xic)) yrc
        x.set_value row col (elem / divider)) x) x0

namespace algorithms

/-- Body of the elimination loop of the free function `decompose` in
src/src/algorithms.rs: identical to the method body except every fallible
call is `.unwrap()`ed instead of propagated with `?`. -/
def algoStep (m : Matrix) (st : Matrix × Matrix) (i j : Nat) :
    Outcome (Matrix × Matrix) := do
  let numerator ← unwrapO (st.2.get_value i j)
  let denominator ← unwrapO (st.2.get_value j j)
  if denominator = 0 then
    Outcome.err ⟨.FailedToDecompose, "Found zero"⟩
  else do
    let multiplier := numerator / denominator
    let l2 ← unwrapO (st.1.set_value i j multiplier)
    let tmp ← unwrapO (Matrix.identity m.rows m.cols)
    let tmp2 ← unwrapO (tmp.set_value i j (-multiplier))
    let u2 ← unwrapO (tmp2.multiplied_by_matrix st.2)
    pure (l2, u2)

/-- Free function `decompose(mat)` of src/src/algorithms.rs: no squareness
check, `l = identity(rows, cols).unwrap()`, same double loop. -/
def decompose (m : Matrix) : Outcome (Matrix × Matrix) := do
  let l0 ← unwrapO (Matrix.identity m.get_size.1 m.get_size.2)
  (List.range' 1 (m.get_size.1 - 1)).foldlM (fun st i =>
    (List.range i).foldlM (fun st j => algoStep m st i j) st) (l0, m)

end algorithms

/-! Pure specification-level functions used to state and prove properties of
the monadic embedding above. -/

/-- Entry `(row, col)` of a matrix through the column-major layout map. -/
def ent (m : Matrix) (row col : Nat) : ℚ := m.data.getD (col * m.rows + row) 0

/-- Pure in-range single-cell update through the column-major layout map. -/
def setEnt (m : Matrix) (row col : Nat) (v : ℚ) : Matrix :=
  ⟨m.rows, m.cols, m.data.set (col * m.rows + row) v⟩

/-- Structural invariants every matrix produced by `Matrix::new` satisfies. -/
def Wf (m : Matrix) : Prop :=
  0 < m.rows ∧ 0 < m.cols ∧ m.data.length = m.rows * m.cols

instance (m : Matrix) : Decidable (Wf m) := by unfold Wf; infer_instance

/-- Sum of `f 0 + ... + f (n-1)`. -/
def sumTo (n : Nat) (f : Nat → ℚ) : ℚ := Finset.sum (Finset.range n) f

/-- The inner-product accumulation computed by the innermost loop of
`multiplied_by_matrix`. -/
def dotP (a b : Matrix) (i j : Nat) : ℚ :=
  (List.range a.cols).foldl (fun s k => s + ent a i k * ent b k j) 0

/-- Pure value of `multiplied_by_matrix` on the non-failing path. -/
def multP (a b : Matrix) : Matrix :=
  (List.range a.rows).foldl (fun out i =>
    (List.range b.cols).foldl (fun out j => setEnt out i j (dotP a b i j)) out)
    ⟨a.rows, b.cols, List.replicate (a.rows * b.cols) 0⟩

/-- Pure value of `transposed` on the non-failing path. -/
def transP (a : Matrix) : Matrix :=
  (List.range a.cols).foldl (fun t j =>
    (List.range a.rows).foldl (fun t i => setEnt t j i (ent a i j)) t)
    ⟨a.cols, a.rows, List.replicate (a.cols * a.rows) 0⟩

/-- The `n × n` matrix `Matrix::identity(n, n)` returns. -/
def idMat (n : Nat) : Matrix := ⟨n, n, identityData n n⟩

/-- Pure value of one elimination step of `decompose` at `(i, j)` when the
pivot is nonzero: record the multiplier in `L`, left-multiply `U` by the
elementary matrix `identity` with `-multiplier` at `(i, j)`. -/
def elimStepP (n : Nat) (st : Matrix × Matrix) (i j : Nat) : Matrix × Matrix :=
  (setEnt st.1 i j (ent st.2 i j / ent st.2 j j),
   multP (setEnt (idMat n) i j (-(ent st.2 i j / ent st.2 j j))) st.2)

/-- State of the elimination after the first `j` steps of row `i`. -/
def elimRowP (n : Nat) (st : Matrix × Matrix) (i j : Nat) : Matrix × Matrix :=
  (List.range j).foldl (fun st jx => elimStepP n st i jx) st

/-- State of the elimination after fully processing rows `1, ..., k`. -/
def elimRowsP (n : Nat) (m : Matrix) (k : Nat) : Matrix × Matrix :=
  (List.range' 1 k).foldl (fun st i => elimRowP n st i i) (idMat n, m)

/-- The pivot `U[j, j]` read by the elimination of `decompose` at step
`(i, j)` (state: rows `1..i-1` done, then `j` steps of row `i`). -/
def decomposePivot (m : Matrix) (i j : Nat) : ℚ :=
  ent (elimRowP m.rows (elimRowsP m.rows m (i - 1)) i j).2 j j

/-- Whether the elimination of `decompose(m)`, run in source order, ever reads
a zero pivot. -/
def hitsZeroPivot (m : Matrix) : Bool :=
  (List.range m.rows).any (fun i =>
    (List.range i).any (fun j => decide (decomposePivot m i j = 0)))

/-- Ghost form of the inner write loop of `multiplied_by_matrix` and
`transposed`: write `g j` into cell `(i, j)` for `j` below `J`. -/
def fillRowF (g : Nat → ℚ) (i J : Nat) (m : Matrix) : Matrix :=
  (List.range J).foldl (fun m2 j => setEnt m2 i j (g j)) m

/-- Ghost form of the double write loop: write `g i j` into cell `(i, j)`. -/
def fillF (g : Nat → Nat → ℚ) (I C : Nat) (m : Matrix) : Matrix :=
  (List.range I).foldl (fun m2 i => fillRowF (g i) i C m2) m

/-- Shape invariant carried through the elimination loop of `decompose`. -/
def Wfm (n : Nat) (a : Matrix) : Prop :=
  a.rows = n ∧ a.cols = n ∧ a.data.length = n * n

/-- Positions `(r, c)` already eliminated when the loop of `decompose` is
about to run step `(i, j)` (lexicographic order: full rows below `i`, then
columns below `j` of row `i`). -/
def proc (i j r c : Nat) : Prop := r < i ∨ (r = i ∧ c < j)

/-- Loop invariant of the elimination: shapes are preserved, `L` carries ones
on the diagonal, zeros above it and zeros at not-yet-processed positions
below it, `U` is zero at every processed position, and `L * U` always equals
the original matrix `m`. -/
def Inv (n : Nat) (m : Matrix) (i j : Nat) (st : Matrix × Matrix) : Prop :=
  Wfm n st.1 ∧ Wfm n st.2
  ∧ (∀ r c, r < n → c < n → r ≤ c → ent st.1 r c = if r = c then 1 else 0)
  ∧ (∀ r c, c < r → r < n → ¬ proc i j r c → ent st.1 r c = 0)
  ∧ (∀ r c, c < r → r < n → proc i j r c → ent st.2 r c = 0)
  ∧ (∀ r c, r < n → c < n → sumTo n (fun k => ent st.1 r k * ent st.2 k c) = ent m r c)

end MWR

namespace MWR

lemma ok_bind {α β : Type} (a : α) (f : α → Outcome β) : Outcome.ok a >>= f = f a := rfl

lemma idx_lt {r c R C : Nat} (hr : r < R) (hc : c < C) : c * R + r < R * C := by
  calc c * R + r < c * R + R := by omega
    _ = (c + 1) * R := by ring
    _ ≤ C * R := Nat.mul_le_mul_right _ hc
    _ = R * C := Nat.mul_comm _ _

lemma get_value_in {m : Matrix} {r c : Nat} (hr : r ≤ m.rows) (hc : c ≤ m.cols)
    (hidx : c * m.rows + r < m.data.length) : m.get_value r c = .ok (ent m r c) := by
  unfold Matrix.get_value ent
  rw [if_neg (by omega), if_neg (by omega), List.getElem?_eq_getElem hidx]
  simp [List.getD_eq_getElem?_getD, List.getElem?_eq_getElem hidx]

lemma get_value_oob {m : Matrix} {r c : Nat} (hr : r ≤ m.rows) (hc : c ≤ m.cols)
    (hidx : ¬ c * m.rows + r < m.data.length) : m.get_value r c = .fault := by
  unfold Matrix.get_value
  rw [if_neg (by omega), if_neg (by omega), List.getElem?_eq_none (by omega)]

lemma set_value_in {m : Matrix} {r c : Nat} {v : ℚ} (hr : r ≤ m.rows) (hc : c ≤ m.cols)
    (hidx : c * m.rows + r < m.data.length) : m.set_value r c v = .ok (setEnt m r c v) := by
  unfold Matrix.set_value setEnt
  rw [if_neg (by omega), if_neg (by omega), if_pos hidx]

lemma set_value_oob {m : Matrix} {r c : Nat} {v : ℚ} (hr : r ≤ m.rows) (hc : c ≤ m.cols)
    (hidx : ¬ c * m.rows + r < m.data.length) : m.set_value r c v = .fault := by
  unfold Matrix.set_value
  rw [if_neg (by omega), if_neg (by omega), if_neg hidx]

lemma get_value_wf {m : Matrix} {r c : Nat} (hlen : m.data.length = m.rows * m.cols)
    (hr : r < m.rows) (hc : c < m.cols) : m.get_value r c = .ok (ent m r c) :=
  get_value_in (le_of_lt hr) (le_of_lt hc) (by rw [hlen]; exact idx_lt hr hc)

lemma set_value_wf {m : Matrix} {r c : Nat} {v : ℚ} (hlen : m.data.length = m.rows * m.cols)
    (hr : r < m.rows) (hc : c < m.cols) : m.set_value r c v = .ok (setEnt m r c v) :=
  set_value_in (le_of_lt hr) (le_of_lt hc) (by rw [hlen]; exact idx_lt hr hc)

/-- C1: the bound check of `get_value`/`set_value` uses a strict `>` test, so
`row = rows` (here `2` on a `2 × 2` matrix) slips past validation and the call
reads/writes flat index 2 — the element at `(0, 1)` — returning `ok` instead
of the `OutOfBoundary` error the specification requires for `row >= rows`. -/
theorem get_set_value_bound_bug :
    Matrix.get_value ⟨2, 2, [1, 2, 3, 4]⟩ 2 0 = .ok 3
    ∧ Matrix.set_value ⟨2, 2, [1, 2, 3, 4]⟩ 2 0 99 = .ok ⟨2, 2, [1, 2, 99, 4]⟩ := by
  decide

/-- C4: `new(rows, cols, data)` succeeds iff `rows > 0`, `cols > 0` and
`data.length = rows * cols`, returning exactly the given shape and data;
otherwise it fails with a `FailedToInitialize` error. -/
theorem new_characterization (rows cols : Nat) (data : List ℚ) :
    (0 < rows ∧ 0 < cols ∧ data.length = rows * cols →
      Matrix.new rows cols data = .ok ⟨rows, cols, data⟩)
    ∧ (¬(0 < rows ∧ 0 < cols ∧ data.length = rows * cols) →
      ∃ msg, Matrix.new rows cols data = .err ⟨.FailedToInitialize, msg⟩) := by
  constructor
  · rintro ⟨h1, h2, h3⟩
    unfold Matrix.new
    rw [if_neg (by positivity), if_pos (by omega)]
  · intro h
    unfold Matrix.new
    by_cases h0 : rows * cols = 0
    · rw [if_pos h0]; exact ⟨_, rfl⟩
    · have hr : 0 < rows := Nat.pos_of_ne_zero (fun hh => h0 (by rw [hh]; ring))
      have hc : 0 < cols := Nat.pos_of_ne_zero (fun hh => h0 (by rw [hh]; ring))
      have hne : data.length ≠ rows * cols := fun hh => h ⟨hr, hc, hh⟩
      rw [if_neg h0, if_neg (fun hh => hne hh.symm)]
      exact ⟨_, rfl⟩

/-- Witness for C4 at a concrete input. -/
theorem new_characterization_witness :
    Matrix.new 2 3 [1, 2, 3, 4, 5, 6] = .ok ⟨2, 3, [1, 2, 3, 4, 5, 6]⟩ :=
  (new_characterization 2 3 [1, 2, 3, 4, 5, 6]).1 (by decide)

end MWR

namespace MWR

/-- C9: a row index exactly equal to `rows` passes the strict `>` validation;
when `col + 1 < cols` the flat index `col*rows + rows` is the slot of element
`(0, col + 1)`, so the call silently reads/writes that element, and when
`col + 1 = cols` or `col = cols` the backing-vector access is out of range and
the call panics (`fault`) instead of returning an error value. -/
theorem row_index_equal_rows_behaviour (m : Matrix) (v : ℚ) (col : Nat)
    (h1 : 0 < m.rows) (h2 : m.data.length = m.rows * m.cols) :
    (col + 1 < m.cols →
      m.get_value m.rows col = .ok (ent m 0 (col + 1))
      ∧ m.set_value m.rows col v = .ok (setEnt m 0 (col + 1) v))
    ∧ (col + 1 = m.cols →
      m.get_value m.rows col = .fault ∧ m.set_value m.rows col v = .fault)
    ∧ (col = m.cols →
      m.get_value m.rows col = .fault ∧ m.set_value m.rows col v = .fault) := by
  have hidx : col * m.rows + m.rows = (col + 1) * m.rows + 0 := by ring
  refine ⟨fun hc => ?_, fun hc => ?_, fun hc => ?_⟩
  · have hin : col * m.rows + m.rows < m.data.length := by
      calc col * m.rows + m.rows = (col + 1) * m.rows + 0 := by ring
        _ < m.rows * m.cols := idx_lt h1 hc
        _ = m.data.length := h2.symm
    have h5 : ent m m.rows col = ent m 0 (col + 1) := by unfold ent; rw [hidx]
    have h6 : setEnt m m.rows col v = setEnt m 0 (col + 1) v := by unfold setEnt; rw [hidx]
    exact ⟨by rw [get_value_in (le_refl _) (by omega) hin, h5],
      by rw [set_value_in (le_refl _) (by omega) hin, h6]⟩
  · have heq : col * m.rows + m.rows = m.data.length := by
      calc col * m.rows + m.rows = (col + 1) * m.rows := by ring
        _ = m.cols * m.rows := by rw [hc]
        _ = m.rows * m.cols := by ring
        _ = m.data.length := h2.symm
    exact ⟨get_value_oob (le_refl _) (by omega) (by omega),
      set_value_oob (le_refl _) (by omega) (by omega)⟩
  · have hge : m.data.length ≤ col * m.rows + m.rows := by
      calc m.data.length = m.rows * m.cols := h2
        _ = m.cols * m.rows := by ring
        _ = col * m.rows := by rw [hc]
        _ ≤ col * m.rows + m.rows := Nat.le_add_right _ _
    exact ⟨get_value_oob (le_refl _) (by omega) (by omega),
      set_value_oob (le_refl _) (by omega) (by omega)⟩

/-- Witness for C9 on a concrete `2 × 2` matrix: `col = 0` silently aliases
element `(0, 1)`, and `col = 1` panics. -/
theorem row_index_equal_rows_behaviour_witness :
    (Matrix.get_value ⟨2, 2, [1, 2, 3, 4]⟩ 2 0 = .ok (ent ⟨2, 2, [1, 2, 3, 4]⟩ 0 1)
      ∧ Matrix.set_value ⟨2, 2, [1, 2, 3, 4]⟩ 2 0 99 = .ok (setEnt ⟨2, 2, [1, 2, 3, 4]⟩ 0 1 99))
    ∧ (Matrix.get_value ⟨2, 2, [1, 2, 3, 4]⟩ 2 1 = .fault
      ∧ Matrix.set_value ⟨2, 2, [1, 2, 3, 4]⟩ 2 1 99 = .fault) :=
  ⟨(row_index_equal_rows_behaviour ⟨2, 2, [1, 2, 3, 4]⟩ 99 0 (by decide) (by decide)).1 (by decide),
   (row_index_equal_rows_behaviour ⟨2, 2, [1, 2, 3, 4]⟩ 99 1 (by decide) (by decide)).2.1 (by decide)⟩

end MWR

namespace MWR

@[simp] lemma bind_ok {α β : Type} (a : α) (f : α → Outcome β) : Outcome.ok a >>= f = f a := rfl
@[simp] lemma bind_err {α β : Type} (e : MathMatrixError) (f : α → Outcome β) : (Outcome.err e : Outcome α) >>= f = .err e := rfl
@[simp] lemma bind_fault {α β : Type} (f : α → Outcome β) : (Outcome.fault : Outcome α) >>= f = .fault := rfl
@[simp] lemma pure_eq_ok {α : Type} (a : α) : (pure a : Outcome α) = .ok a := rfl
@[simp] lemma unwrapO_ok {α : Type} (a : α) : unwrapO (.ok a) = (.ok a : Outcome α) := rfl
@[simp] lemma unwrapO_err {α : Type} (e : MathMatrixError) : unwrapO (.err e : Outcome α) = .fault := rfl
@[simp] lemma unwrapO_fault {α : Type} : unwrapO (.fault : Outcome α) = .fault := rfl

end MWR

namespace MWR

lemma foldlM_ok_inv {α β : Type} (P : β → Prop) (l : List α) (f : β → α → Outcome β)
    (g : β → α → β) (h : ∀ b x, P b → x ∈ l → f b x = .ok (g b x) ∧ P (g b x)) :
    ∀ b0, P b0 → l.foldlM f b0 = .ok (l.foldl g b0) ∧ P (l.foldl g b0) := by
  induction l with
  | nil => exact fun b0 hb => ⟨rfl, hb⟩
  | cons x xs ih =>
    intro b0 hb
    have hx := h b0 x hb (List.mem_cons_self _ _)
    rw [List.foldlM_cons, hx.1, bind_ok, List.foldl_cons]
    exact ih (fun b y hbp hy => h b y hbp (List.mem_cons_of_mem _ hy)) _ hx.2

lemma foldl_preserve {α β : Type} (P : β → Prop) (l : List α) (g : β → α → β)
    (h : ∀ b x, P b → P (g b x)) : ∀ b0, P b0 → P (l.foldl g b0) := by
  induction l with
  | nil => exact fun _ hb => hb
  | cons x xs ih => exact fun b0 hb => ih _ (h b0 x hb)

lemma foldl_add_sum (n : Nat) (f : Nat → ℚ) (init : ℚ) :
    (List.range n).foldl (fun s k => s + f k) init = init + sumTo n f := by
  induction n with
  | zero => simp [sumTo]
  | succ n ih =>
    rw [List.range_succ, List.foldl_append, ih]
    simp [sumTo, Finset.sum_range_succ, add_assoc]

lemma dotP_eq_sumTo (a b : Matrix) (i j : Nat) :
    dotP a b i j = sumTo a.cols (fun k => ent a i k * ent b k j) := by
  rw [dotP, foldl_add_sum, zero_add]

@[simp] lemma setEnt_rows (m : Matrix) (r c : Nat) (v : ℚ) : (setEnt m r c v).rows = m.rows := rfl

@[simp] lemma setEnt_cols (m : Matrix) (r c : Nat) (v : ℚ) : (setEnt m r c v).cols = m.cols := rfl

@[simp] lemma setEnt_length (m : Matrix) (r c : Nat) (v : ℚ) :
    (setEnt m r c v).data.length = m.data.length := List.length_set ..

lemma flat_inj {R r r' c c' : Nat} (hr : r < R) (hr' : r' < R)
    (h : c' * R + r' = c * R + r) : r' = r ∧ c' = c := by
  have e : R * c' + r' = R * c + r := by
    rw [Nat.mul_comm R c', Nat.mul_comm R c]; exact h
  have hrr : r' = r := by
    have h2 := congrArg (· % R) e
    simpa [Nat.mul_add_mod, Nat.mod_eq_of_lt hr, Nat.mod_eq_of_lt hr'] using h2
  refine ⟨hrr, ?_⟩
  have h3 : R * c' = R * c := by omega
  exact Nat.eq_of_mul_eq_mul_left (by omega) h3

lemma getD_set_self {l : List ℚ} {i : Nat} {v : ℚ} (h : i < l.length) :
    (l.set i v).getD i 0 = v := by
  rw [List.getD_eq_getElem?_getD, List.getElem?_set]
  simp [h]

lemma getD_set_ne {l : List ℚ} {i k : Nat} {v : ℚ} (h : i ≠ k) :
    (l.set i v).getD k 0 = l.getD k 0 := by
  rw [List.getD_eq_getElem?_getD, List.getElem?_set, if_neg h, ← List.getD_eq_getElem?_getD]

lemma ent_setEnt (m : Matrix) (r c : Nat) (v : ℚ) (r' c' : Nat)
    (hr : r < m.rows) (hr' : r' < m.rows) (hidx : c * m.rows + r < m.data.length) :
    ent (setEnt m r c v) r' c' = if r' = r ∧ c' = c then v else ent m r' c' := by
  unfold ent setEnt
  by_cases heq : c' * m.rows + r' = c * m.rows + r
  · have := flat_inj hr hr' heq
    rw [if_pos this]
    simp only [heq]
    exact getD_set_self hidx
  · rw [if_neg (by rintro ⟨rfl, rfl⟩; exact heq rfl)]
    exact getD_set_ne (fun hh => heq hh.symm)

end MWR

namespace MWR



lemma fillRowF_props {R C : Nat} (hR : 0 < R) (g : Nat → ℚ) {i : Nat} (hi : i < R) :
    ∀ J, J ≤ C → ∀ m : Matrix, m.rows = R → m.cols = C → m.data.length = R * C →
      (fillRowF g i J m).rows = R ∧ (fillRowF g i J m).cols = C
      ∧ (fillRowF g i J m).data.length = R * C
      ∧ ∀ k, k < R * C → (fillRowF g i J m).data.getD k 0
          = if k % R = i ∧ k / R < J then g (k / R) else m.data.getD k 0 := by
  intro J
  induction J with
  | zero =>
    intro _ m h1 h2 h3
    exact ⟨h1, h2, h3, fun k _ => by simp [fillRowF]⟩
  | succ J ih =>
    intro hJ m h1 h2 h3
    have hJC : J < C := hJ
    obtain ⟨m1, m2, m3, m4⟩ := ih (le_of_lt hJC) m h1 h2 h3
    have hfold : fillRowF g i (J + 1) m = setEnt (fillRowF g i J m) i J (g J) := by
      unfold fillRowF
      rw [List.range_succ, List.foldl_append, List.foldl_cons, List.foldl_nil]
    have hidx : J * R + i < R * C := idx_lt hi hJC
    refine ⟨by rw [hfold]; simp [m1], by rw [hfold]; simp [m2], by rw [hfold]; simp [m3], ?_⟩
    intro k hk
    rw [hfold]
    show ((fillRowF g i J m).data.set (J * (fillRowF g i J m).rows + i) (g J)).getD k 0 = _
    rw [m1]
    by_cases hkJ : k = J * R + i
    · subst hkJ
      rw [getD_set_self (by rw [m3]; exact hidx)]
      have e1 : (J * R + i) % R = i := by
        rw [Nat.mul_comm, Nat.mul_add_mod, Nat.mod_eq_of_lt hi]
      have e2 : (J * R + i) / R = J := by
        rw [Nat.mul_comm, Nat.mul_add_div hR, Nat.div_eq_of_lt hi, Nat.add_zero]
      rw [if_pos ⟨e1, by rw [e2]; omega⟩, e2]
    · rw [getD_set_ne (fun hh => hkJ hh.symm), m4 k hk]
      by_cases hc : k % R = i ∧ k / R < J + 1
      · obtain ⟨hc1, hc2⟩ := hc
        have hne : k / R ≠ J := by
          intro he
          apply hkJ
          have := Nat.div_add_mod k R
          rw [he, hc1] at this
          have hcm : J * R = R * J := Nat.mul_comm J R
          omega
        rw [if_pos ⟨hc1, by omega⟩, if_pos ⟨hc1, by omega⟩]
      · rw [if_neg hc, if_neg (by intro hh; exact hc ⟨hh.1, by omega⟩)]

lemma fillF_props {R C : Nat} (hR : 0 < R) (g : Nat → Nat → ℚ) :
    ∀ I, I ≤ R → ∀ m : Matrix, m.rows = R → m.cols = C → m.data.length = R * C →
      (fillF g I C m).rows = R ∧ (fillF g I C m).cols = C
      ∧ (fillF g I C m).data.length = R * C
      ∧ ∀ k, k < R * C → (fillF g I C m).data.getD k 0
          = if k % R < I then g (k % R) (k / R) else m.data.getD k 0 := by
  intro I
  induction I with
  | zero =>
    intro _ m h1 h2 h3
    exact ⟨h1, h2, h3, fun k _ => by simp [fillF]⟩
  | succ I ih =>
    intro hI m h1 h2 h3
    have hIR : I < R := hI
    obtain ⟨m1, m2, m3, m4⟩ := ih (le_of_lt hIR) m h1 h2 h3
    have hfold : fillF g (I + 1) C m = fillRowF (g I) I C (fillF g I C m) := by
      unfold fillF
      rw [List.range_succ, List.foldl_append, List.foldl_cons, List.foldl_nil]
    obtain ⟨r1, r2, r3, r4⟩ := fillRowF_props hR (g I) hIR C (le_refl C) _ m1 m2 m3
    refine ⟨by rw [hfold]; exact r1, by rw [hfold]; exact r2, by rw [hfold]; exact r3, ?_⟩
    intro k hk
    rw [hfold, r4 k hk, m4 k hk]
    have hdiv : k / R < C := by
      rw [Nat.div_lt_iff_lt_mul hR]
      have hcm : C * R = R * C := Nat.mul_comm C R
      omega
    by_cases hc : k % R = I
    · rw [if_pos ⟨hc, hdiv⟩, if_pos (show k % R < I + 1 by omega), hc]
    · rw [if_neg (by intro hh; exact hc hh.1)]
      by_cases hlt : k % R < I
      · rw [if_pos hlt, if_pos (by omega)]
      · rw [if_neg hlt, if_neg (by omega)]

end MWR

namespace MWR

lemma foldl_set_block (g : Nat → ℚ) (off R : Nat) :
    ∀ d : List ℚ, off + R ≤ d.length →
      (((List.range R).foldl (fun d2 i => d2.set (i + off) (g i)) d).length = d.length)
      ∧ ∀ k, ((List.range R).foldl (fun d2 i => d2.set (i + off) (g i)) d).getD k 0
          = if off ≤ k ∧ k < off + R then g (k - off) else d.getD k 0 := by
  induction R with
  | zero =>
    intro d _
    refine ⟨rfl, fun k => ?_⟩
    simp only [List.range_zero, List.foldl_nil]
    rw [if_neg (by omega)]
  | succ R ih =>
    intro d hlen
    obtain ⟨ih1, ih2⟩ := ih d (by omega)
    have hfold : (List.range (R + 1)).foldl (fun d2 i => d2.set (i + off) (g i)) d
        = ((List.range R).foldl (fun d2 i => d2.set (i + off) (g i)) d).set (R + off) (g R) := by
      rw [List.range_succ, List.foldl_append, List.foldl_cons, List.foldl_nil]
    rw [hfold]
    refine ⟨by rw [List.length_set, ih1], ?_⟩
    intro k
    by_cases hk : k = R + off
    · subst hk
      rw [getD_set_self (by rw [ih1]; omega), if_pos (by omega)]
      congr 1
      omega
    · rw [getD_set_ne (fun hh => hk hh.symm), ih2 k]
      by_cases hc : off ≤ k ∧ k < off + R
      · rw [if_pos hc, if_pos (by omega)]
      · rw [if_neg hc, if_neg (by omega)]

lemma identityData_props (R C : Nat) (hR : 0 < R) :
    (identityData R C).length = R * C
    ∧ ∀ k, k < R * C →
        (identityData R C).getD k 0 = if k % R = k / R then 1 else 0 := by
  suffices h : ∀ J, J ≤ C → ∀ d : List ℚ, d.length = R * C →
      ((List.range J).foldl
        (fun d2 j => (List.range R).foldl
          (fun d3 i => d3.set (i + R * j) (if i = j then (1 : ℚ) else 0)) d2) d).length = R * C
      ∧ ∀ k, k < R * C →
        ((List.range J).foldl
          (fun d2 j => (List.range R).foldl
            (fun d3 i => d3.set (i + R * j) (if i = j then (1 : ℚ) else 0)) d2) d).getD k 0
          = if k / R < J then (if k % R = k / R then 1 else 0) else d.getD k 0 by
    obtain ⟨h1, h2⟩ := h C (le_refl C) (List.replicate (R * C) 0) (List.length_replicate ..)
    refine ⟨h1, fun k hk => ?_⟩
    rw [identityData, h2 k hk, if_pos ?_]
    rw [Nat.div_lt_iff_lt_mul hR]
    have hcm : C * R = R * C := Nat.mul_comm C R
    omega
  intro J
  induction J with
  | zero =>
    intro _ d hd
    exact ⟨hd, fun k _ => by simp⟩
  | succ J ih =>
    intro hJ d hd
    obtain ⟨ih1, ih2⟩ := ih (by omega) d hd
    have hfold : ∀ d0 : List ℚ, (List.range (J + 1)).foldl
        (fun d2 j => (List.range R).foldl
          (fun d3 i => d3.set (i + R * j) (if i = j then (1 : ℚ) else 0)) d2) d0
        = (List.range R).foldl
          (fun d3 i => d3.set (i + R * J) (if i = J then (1 : ℚ) else 0))
          ((List.range J).foldl
            (fun d2 j => (List.range R).foldl
              (fun d3 i => d3.set (i + R * j) (if i = j then (1 : ℚ) else 0)) d2) d0) := by
      intro d0
      rw [List.range_succ, List.foldl_append, List.foldl_cons, List.foldl_nil]
    have hblock := foldl_set_block (fun i => if i = J then (1 : ℚ) else 0) (R * J) R
      ((List.range J).foldl
        (fun d2 j => (List.range R).foldl
          (fun d3 i => d3.set (i + R * j) (if i = j then (1 : ℚ) else 0)) d2) d)
      (by rw [ih1]; calc R * J + R = R * (J + 1) := by ring
            _ ≤ R * C := Nat.mul_le_mul_left R hJ)
    rw [hfold]
    refine ⟨by rw [hblock.1, ih1], ?_⟩
    intro k hk
    rw [hblock.2 k]
    by_cases hc : R * J ≤ k ∧ k < R * J + R
    · have hdivJ : k / R = J := by
        have h1 := Nat.div_add_mod k R
        have h2 : k % R < R := Nat.mod_lt _ hR
        rcases Nat.lt_or_ge (k / R) J with h3 | h3
        · exfalso
          have : R * (k / R) + R ≤ R * J := by
            calc R * (k / R) + R = R * (k / R + 1) := by ring
              _ ≤ R * J := Nat.mul_le_mul_left R h3
          omega
        rcases Nat.lt_or_ge J (k / R) with h4 | h4
        · exfalso
          have : R * (J + 1) ≤ R * (k / R) := Nat.mul_le_mul_left R h4
          have h5 : R * (J + 1) = R * J + R := by ring
          omega
        omega
      have hmod : k % R = k - R * J := by
        have h1 := Nat.div_add_mod k R
        rw [hdivJ] at h1
        omega
      rw [if_pos hc, if_pos (show k / R < J + 1 by omega), hdivJ, ← hmod]
    · have hne : k / R ≠ J := by
        intro he
        apply hc
        have h1 := Nat.div_add_mod k R
        rw [he] at h1
        have h2 : k % R < R := Nat.mod_lt _ hR
        omega
      rw [if_neg hc, ih2 k hk]
      by_cases hlt : k / R < J
      · rw [if_pos hlt, if_pos (show k / R < J + 1 by omega)]
      · rw [if_neg hlt, if_neg (show ¬ k / R < J + 1 by omega)]

lemma idMat_rows (n : Nat) : (idMat n).rows = n := rfl

lemma idMat_cols (n : Nat) : (idMat n).cols = n := rfl

lemma idMat_length (n : Nat) (hn : 0 < n) : (idMat n).data.length = n * n :=
  (identityData_props n n hn).1

lemma ent_idMat {n : Nat} (hn : 0 < n) {r c : Nat} (hr : r < n) (hc : c < n) :
    ent (idMat n) r c = if r = c then 1 else 0 := by
  unfold ent idMat
  have hk : c * n + r < n * n := idx_lt hr hc
  rw [(identityData_props n n hn).2 _ hk]
  have e1 : (c * n + r) % n = r := by
    rw [Nat.mul_comm, Nat.mul_add_mod, Nat.mod_eq_of_lt hr]
  have e2 : (c * n + r) / n = c := by
    rw [Nat.mul_comm, Nat.mul_add_div hn, Nat.div_eq_of_lt hr, Nat.add_zero]
  rw [e1, e2]

lemma identity_ok (R C : Nat) (hR : 0 < R) (hC : 0 < C) :
    Matrix.identity R C = .ok ⟨R, C, identityData R C⟩ := by
  unfold Matrix.identity Matrix.new
  rw [if_neg (by positivity), if_pos ((identityData_props R C hR).1).symm]

lemma matrix_eq_of_getD {m1 m2 : Matrix} (hr : m1.rows = m2.rows) (hc : m1.cols = m2.cols)
    (hl : m1.data.length = m2.data.length)
    (h : ∀ k, k < m1.data.length → m1.data.getD k 0 = m2.data.getD k 0) : m1 = m2 := by
  obtain ⟨r1, c1, d1⟩ := m1
  obtain ⟨r2, c2, d2⟩ := m2
  simp only at hr hc hl h
  subst hr hc
  congr 1
  apply List.ext_getElem?
  intro n
  by_cases hn : n < d1.length
  · rw [List.getElem?_eq_getElem hn, List.getElem?_eq_getElem (by omega)]
    have := h n hn
    rw [List.getD_eq_getElem?_getD, List.getD_eq_getElem?_getD,
      List.getElem?_eq_getElem hn, List.getElem?_eq_getElem (by omega)] at this
    simpa using this
  · rw [List.getElem?_eq_none (by omega), List.getElem?_eq_none (by omega)]

end MWR

namespace MWR

lemma multP_eq_fillF (a b : Matrix) :
    multP a b = fillF (fun i j => dotP a b i j) a.rows b.cols
      ⟨a.rows, b.cols, List.replicate (a.rows * b.cols) 0⟩ := rfl

lemma multP_props (a b : Matrix) (hR : 0 < a.rows) (hC : 0 < b.cols) :
    (multP a b).rows = a.rows ∧ (multP a b).cols = b.cols
    ∧ (multP a b).data.length = a.rows * b.cols
    ∧ (∀ k, k < a.rows * b.cols →
        (multP a b).data.getD k 0 = dotP a b (k % a.rows) (k / a.rows))
    ∧ ∀ i j, i < a.rows → j < b.cols → ent (multP a b) i j = dotP a b i j := by
  obtain ⟨h1, h2, h3, h4⟩ := fillF_props hR (fun i j => dotP a b i j) a.rows (le_refl _)
    ⟨a.rows, b.cols, List.replicate (a.rows * b.cols) 0⟩ rfl rfl (List.length_replicate ..)
  rw [← multP_eq_fillF] at h1 h2 h3 h4
  have hget : ∀ k, k < a.rows * b.cols →
      (multP a b).data.getD k 0 = dotP a b (k % a.rows) (k / a.rows) := by
    intro k hk
    rw [h4 k hk, if_pos (Nat.mod_lt _ hR)]
  refine ⟨h1, h2, h3, hget, ?_⟩
  intro i j hi hj
  have hk : j * a.rows + i < a.rows * b.cols := idx_lt hi hj
  have e1 : (j * a.rows + i) % a.rows = i := by
    rw [Nat.mul_comm, Nat.mul_add_mod, Nat.mod_eq_of_lt hi]
  have e2 : (j * a.rows + i) / a.rows = j := by
    rw [Nat.mul_comm, Nat.mul_add_div hR, Nat.div_eq_of_lt hi, Nat.add_zero]
  have : ent (multP a b) i j = (multP a b).data.getD (j * (multP a b).rows + i) 0 := rfl
  rw [this, h1, hget _ hk, e1, e2]

lemma transP_eq_fillF (a : Matrix) :
    transP a = fillF (fun j i => ent a i j) a.cols a.rows
      ⟨a.cols, a.rows, List.replicate (a.cols * a.rows) 0⟩ := rfl

lemma transP_props (a : Matrix) (hR : 0 < a.rows) (hC : 0 < a.cols) :
    (transP a).rows = a.cols ∧ (transP a).cols = a.rows
    ∧ (transP a).data.length = a.cols * a.rows
    ∧ (∀ k, k < a.cols * a.rows →
        (transP a).data.getD k 0 = ent a (k / a.cols) (k % a.cols))
    ∧ ∀ i j, i < a.rows → j < a.cols → ent (transP a) j i = ent a i j := by
  obtain ⟨h1, h2, h3, h4⟩ := fillF_props hC (fun j i => ent a i j) a.cols (le_refl _)
    ⟨a.cols, a.rows, List.replicate (a.cols * a.rows) 0⟩ rfl rfl (List.length_replicate ..)
  rw [← transP_eq_fillF] at h1 h2 h3 h4
  have hget : ∀ k, k < a.cols * a.rows →
      (transP a).data.getD k 0 = ent a (k / a.cols) (k % a.cols) := by
    intro k hk
    rw [h4 k hk, if_pos (Nat.mod_lt _ hC)]
  refine ⟨h1, h2, h3, hget, ?_⟩
  intro i j hi hj
  have hk : i * a.cols + j < a.cols * a.rows := idx_lt hj hi
  have e1 : (i * a.cols + j) % a.cols = j := by
    rw [Nat.mul_comm, Nat.mul_add_mod, Nat.mod_eq_of_lt hj]
  have e2 : (i * a.cols + j) / a.cols = i := by
    rw [Nat.mul_comm, Nat.mul_add_div hC, Nat.div_eq_of_lt hj, Nat.add_zero]
  have : ent (transP a) j i = (transP a).data.getD (i * (transP a).rows + j) 0 := rfl
  rw [this, h1, hget _ hk, e1, e2]

lemma multiplied_by_matrix_ok (a b : Matrix) (ha : Wf a) (hb : Wf b)
    (hab : a.cols = b.rows) : a.multiplied_by_matrix b = .ok (multP a b) := by
  obtain ⟨har, hac, hal⟩ := ha
  obtain ⟨hbr, hbc, hbl⟩ := hb
  have hsum : ∀ (i j : Nat), i < a.rows → j < b.cols →
      ((List.range a.cols).foldlM (fun s k => do
        let x ← a.get_value i k
        let y ← b.get_value k j
        pure (s + x * y)) (0 : ℚ)) = .ok (dotP a b i j) := by
    intro i j hi hj
    have h := foldlM_ok_inv (fun _ : ℚ => True) (List.range a.cols)
      (fun s k => do
        let x ← a.get_value i k
        let y ← b.get_value k j
        pure (s + x * y))
      (fun s k => s + ent a i k * ent b k j)
      (by
        intro s k _ hk
        have hkc : k < a.cols := List.mem_range.mp hk
        refine ⟨?_, trivial⟩
        dsimp only
        rw [get_value_wf hal hi hkc, bind_ok, get_value_wf hbl (by omega) hj, bind_ok]
        rfl)
      0 trivial
    rw [h.1, dotP]
  have hinner : ∀ (out : Matrix) (i : Nat), i < a.rows →
      out.rows = a.rows ∧ out.cols = b.cols ∧ out.data.length = a.rows * b.cols →
      ((List.range b.cols).foldlM (fun out j => do
        let sum ← (List.range a.cols).foldlM (fun s k => do
          let x ← a.get_value i k
          let y ← b.get_value k j
          pure (s + x * y)) (0 : ℚ)
        unwrapO (out.set_value i j sum)) out)
        = .ok (fillRowF (dotP a b i) i b.cols out)
      ∧ ((fillRowF (dotP a b i) i b.cols out).rows = a.rows
        ∧ (fillRowF (dotP a b i) i b.cols out).cols = b.cols
        ∧ (fillRowF (dotP a b i) i b.cols out).data.length = a.rows * b.cols) := by
    intro out i hi hout
    exact foldlM_ok_inv
      (fun o => o.rows = a.rows ∧ o.cols = b.cols ∧ o.data.length = a.rows * b.cols)
      (List.range b.cols)
      (fun out j => do
        let sum ← (List.range a.cols).foldlM (fun s k => do
          let x ← a.get_value i k
          let y ← b.get_value k j
          pure (s + x * y)) (0 : ℚ)
        unwrapO (out.set_value i j sum))
      (fun out j => setEnt out i j (dotP a b i j))
      (by
        intro o j ho hj
        have hjb : j < b.cols := List.mem_range.mp hj
        obtain ⟨ho1, ho2, ho3⟩ := ho
        constructor
        · dsimp only
          rw [hsum i j hi hjb, bind_ok,
            set_value_wf (by rw [ho3, ho1, ho2]) (by omega) (by omega), unwrapO_ok]
        · exact ⟨by simp [ho1], by simp [ho2], by simp [ho3]⟩)
      out hout
  unfold Matrix.multiplied_by_matrix
  rw [if_neg (by omega)]
  have hnew : Matrix.new a.rows b.cols (List.replicate (a.rows * b.cols) 0)
      = .ok ⟨a.rows, b.cols, List.replicate (a.rows * b.cols) 0⟩ := by
    unfold Matrix.new
    rw [if_neg (by positivity), if_pos (List.length_replicate ..).symm]
  rw [hnew, unwrapO_ok, bind_ok]
  have houter := foldlM_ok_inv
    (fun o => o.rows = a.rows ∧ o.cols = b.cols ∧ o.data.length = a.rows * b.cols)
    (List.range a.rows)
    (fun out i => (List.range b.cols).foldlM (fun out j => do
        let sum ← (List.range a.cols).foldlM (fun s k => do
          let x ← a.get_value i k
          let y ← b.get_value k j
          pure (s + x * y)) (0 : ℚ)
        unwrapO (out.set_value i j sum)) out)
    (fun out i => fillRowF (dotP a b i) i b.cols out)
    (by
      intro o i ho hi
      have hia : i < a.rows := List.mem_range.mp hi
      exact hinner o i hia ho)
    ⟨a.rows, b.cols, List.replicate (a.rows * b.cols) 0⟩
    ⟨rfl, rfl, List.length_replicate ..⟩
  rw [houter.1]
  rfl

end MWR

namespace MWR

lemma set_value_ignore_of_ok {m m2 : Matrix} {r c : Nat} {v : ℚ}
    (h : m.set_value r c v = .ok m2) : m.set_value_ignore r c v = .ok m2 := by
  unfold Matrix.set_value_ignore
  rw [h]

lemma transposed_ok (a : Matrix) (ha : Wf a) : a.transposed = .ok (transP a) := by
  obtain ⟨har, hac, hal⟩ := ha
  unfold Matrix.transposed
  have hz : Matrix.zeros a.cols a.rows
      = .ok ⟨a.cols, a.rows, List.replicate (a.cols * a.rows) 0⟩ := by
    unfold Matrix.zeros Matrix.new
    rw [if_neg (by positivity), if_pos (List.length_replicate ..).symm]
  rw [hz, unwrapO_ok, bind_ok]
  have houter := foldlM_ok_inv
    (fun t => t.rows = a.cols ∧ t.cols = a.rows ∧ t.data.length = a.cols * a.rows)
    (List.range a.cols)
    (fun t j => (List.range a.rows).foldlM (fun t i => do
        let v ← unwrapO (a.get_value i j)
        t.set_value_ignore j i v) t)
    (fun t j => fillRowF (fun i => ent a i j) j a.rows t)
    (by
      intro t j ht hj
      have hja : j < a.cols := List.mem_range.mp hj
      exact foldlM_ok_inv
        (fun t => t.rows = a.cols ∧ t.cols = a.rows ∧ t.data.length = a.cols * a.rows)
        (List.range a.rows)
        (fun t i => do
          let v ← unwrapO (a.get_value i j)
          t.set_value_ignore j i v)
        (fun t i => setEnt t j i (ent a i j))
        (by
          intro t2 i ht2 hi
          have hia : i < a.rows := List.mem_range.mp hi
          obtain ⟨ht1, ht2c, ht3⟩ := ht2
          constructor
          · dsimp only
            rw [get_value_wf hal hia hja, unwrapO_ok, bind_ok,
              set_value_ignore_of_ok (set_value_wf (by rw [ht3, ht1, ht2c]) (by omega) (by omega))]
          · exact ⟨by simp [ht1], by simp [ht2c], by simp [ht3]⟩)
        t ht)
    ⟨a.cols, a.rows, List.replicate (a.cols * a.rows) 0⟩
    ⟨rfl, rfl, List.length_replicate ..⟩
  rw [houter.1]
  rfl

lemma getD_eq_ent (m : Matrix) (k : Nat) (_h : 0 < m.rows) :
    m.data.getD k 0 = ent m (k % m.rows) (k / m.rows) := by
  unfold ent
  congr 1
  have h1 := Nat.div_add_mod k m.rows
  have h2 : k / m.rows * m.rows = m.rows * (k / m.rows) := Nat.mul_comm ..
  omega

lemma transP_transP (a : Matrix) (ha : Wf a) : transP (transP a) = a := by
  obtain ⟨har, hac, hal⟩ := ha
  obtain ⟨t1, t2, t3, t4, t5⟩ := transP_props a har hac
  have hbr : 0 < (transP a).rows := by rw [t1]; exact hac
  have hbc : 0 < (transP a).cols := by rw [t2]; exact har
  obtain ⟨q1, q2, q3, q4, q5⟩ := transP_props (transP a) hbr hbc
  apply matrix_eq_of_getD (by rw [q1, t2]) (by rw [q2, t1])
    (by rw [q3, t1, t2, hal])
  intro k hk
  rw [q3, t1, t2] at hk
  have hk2 : k < (transP a).cols * (transP a).rows := by rw [t1, t2]; omega
  rw [q4 k hk2]
  have e2 : (transP a).cols = a.rows := t2
  have hdivlt : k / a.rows < a.cols := by
    rw [Nat.div_lt_iff_lt_mul har]
    have hcm : a.cols * a.rows = a.rows * a.cols := Nat.mul_comm ..
    omega
  have hmodlt : k % a.rows < a.rows := Nat.mod_lt _ har
  rw [show ent (transP a) (k / (transP a).cols) (k % (transP a).cols)
      = ent (transP a) (k / a.rows) (k % a.rows) by rw [e2]]
  rw [t5 (k % a.rows) (k / a.rows) hmodlt hdivlt]
  rw [getD_eq_ent a k har]

lemma sumTo_delta_left {n i : Nat} (hi : i < n) (f : Nat → ℚ) :
    sumTo n (fun t => (if i = t then 1 else 0) * f t) = f i := by
  unfold sumTo
  have h : ∀ t ∈ Finset.range n, (if i = t then (1 : ℚ) else 0) * f t
      = if i = t then f t else 0 := fun t _ => by split_ifs <;> ring
  rw [Finset.sum_congr rfl h, Finset.sum_ite_eq, if_pos (Finset.mem_range.mpr hi)]

lemma sumTo_delta_right {n j : Nat} (hj : j < n) (f : Nat → ℚ) :
    sumTo n (fun t => f t * (if t = j then 1 else 0)) = f j := by
  unfold sumTo
  have h : ∀ t ∈ Finset.range n, f t * (if t = j then (1 : ℚ) else 0)
      = if t = j then f t else 0 := fun t _ => by split_ifs <;> ring
  rw [Finset.sum_congr rfl h, Finset.sum_ite_eq', if_pos (Finset.mem_range.mpr hj)]

lemma dot_idMat_left {R : Nat} (hR : 0 < R) (m : Matrix) {i : Nat} (hi : i < R) (j : Nat) :
    dotP (idMat R) m i j = ent m i j := by
  rw [dotP_eq_sumTo]
  show sumTo R (fun t => ent (idMat R) i t * ent m t j) = ent m i j
  have h : ∀ t ∈ Finset.range R, ent (idMat R) i t * ent m t j
      = (if i = t then 1 else 0) * ent m t j := fun t ht => by
    rw [ent_idMat hR hi (Finset.mem_range.mp ht)]
  unfold sumTo
  rw [Finset.sum_congr rfl h]
  exact sumTo_delta_left hi (fun t => ent m t j)

lemma dot_idMat_right {C : Nat} (hC : 0 < C) (m : Matrix) (hmc : m.cols = C)
    {j : Nat} (hj : j < C) (i : Nat) : dotP m (idMat C) i j = ent m i j := by
  rw [dotP_eq_sumTo]
  rw [hmc]
  have h : ∀ t ∈ Finset.range C, ent m i t * ent (idMat C) t j
      = ent m i t * (if t = j then 1 else 0) := fun t ht => by
    rw [ent_idMat hC (Finset.mem_range.mp ht) hj]
  unfold sumTo
  rw [Finset.sum_congr rfl h]
  exact sumTo_delta_right hj (fun t => ent m i t)

end MWR

namespace MWR

/-- C5: `multiplied_by_matrix(a, b)` fails with `SizeMismatch` if and only if
`a.cols ≠ b.rows`; on success it returns an `a.rows × b.cols` matrix whose
entry `(i, j)` is the sum over `k` of `a[i,k] * b[k,j]`. -/
theorem multiplied_by_matrix_characterization (a b : Matrix) (ha : Wf a) (hb : Wf b) :
    (a.cols ≠ b.rows →
      a.multiplied_by_matrix b
        = .err ⟨.SizeMismatch, "Multiplication allowed for NxM * MxO"⟩)
    ∧ ((∃ e, a.multiplied_by_matrix b = .err e ∧ e.kind = .SizeMismatch) ↔ a.cols ≠ b.rows)
    ∧ (a.cols = b.rows →
      ∃ c, a.multiplied_by_matrix b = .ok c ∧ c.rows = a.rows ∧ c.cols = b.cols
        ∧ ∀ i j, i < a.rows → j < b.cols →
            ent c i j = sumTo a.cols (fun k => ent a i k * ent b k j)) := by
  have herr : a.cols ≠ b.rows →
      a.multiplied_by_matrix b
        = .err ⟨.SizeMismatch, "Multiplication allowed for NxM * MxO"⟩ := by
    intro h
    unfold Matrix.multiplied_by_matrix
    rw [if_pos h]
  have hok : a.cols = b.rows →
      ∃ c, a.multiplied_by_matrix b = .ok c ∧ c.rows = a.rows ∧ c.cols = b.cols
        ∧ ∀ i j, i < a.rows → j < b.cols →
            ent c i j = sumTo a.cols (fun k => ent a i k * ent b k j) := by
    intro h
    obtain ⟨p1, p2, p3, p4, p5⟩ := multP_props a b ha.1 hb.2.1
    exact ⟨multP a b, multiplied_by_matrix_ok a b ha hb h, p1, p2,
      fun i j hi hj => by rw [p5 i j hi hj, dotP_eq_sumTo]⟩
  refine ⟨herr, ⟨?_, fun h => ⟨_, herr h, rfl⟩⟩, hok⟩
  rintro ⟨e, he, _⟩ 
  intro heq
  obtain ⟨c, hc, _⟩ := hok heq
  rw [hc] at he
  exact Outcome.noConfusion he

/-- Witness for C5: a `2x2` by `3x1` product fails with `SizeMismatch`, and a
`2x2` by `2x1` product succeeds with the dot-product entries. -/
theorem multiplied_by_matrix_characterization_witness :
    Matrix.multiplied_by_matrix ⟨2, 2, [1, 2, 3, 4]⟩ ⟨3, 1, [1, 1, 1]⟩
      = .err ⟨.SizeMismatch, "Multiplication allowed for NxM * MxO"⟩
    ∧ ∃ c, Matrix.multiplied_by_matrix ⟨2, 2, [1, 2, 3, 4]⟩ ⟨2, 1, [1, 1]⟩ = .ok c
        ∧ c.rows = 2 ∧ c.cols = 1
        ∧ ∀ i j, i < 2 → j < 1 →
            ent c i j
              = sumTo 2 (fun k => ent ⟨2, 2, [1, 2, 3, 4]⟩ i k * ent ⟨2, 1, [1, 1]⟩ k j) :=
  ⟨(multiplied_by_matrix_characterization ⟨2, 2, [1, 2, 3, 4]⟩ ⟨3, 1, [1, 1, 1]⟩
      (by decide) (by decide)).1 (by decide),
   (multiplied_by_matrix_characterization ⟨2, 2, [1, 2, 3, 4]⟩ ⟨2, 1, [1, 1]⟩
      (by decide) (by decide)).2.2 rfl⟩

end MWR

namespace MWR

lemma multP_idMat_left (m : Matrix) (hm : Wf m) : multP (idMat m.rows) m = m := by
  obtain ⟨har, hac, hal⟩ := hm
  obtain ⟨p1, p2, p3, p4, p5⟩ := multP_props (idMat m.rows) m har hac
  apply matrix_eq_of_getD (by rw [p1]; rfl) (by rw [p2]) (by rw [p3, hal]; rfl)
  intro k hk
  rw [p3] at hk
  have hk2 : k < (idMat m.rows).rows * m.cols := hk
  rw [p4 k hk2]
  have hmod : k % (idMat m.rows).rows < m.rows := Nat.mod_lt _ har
  rw [show (idMat m.rows).rows = m.rows from rfl] at hmod ⊢
  rw [dot_idMat_left har m hmod, getD_eq_ent m k har]

lemma multP_idMat_right (m : Matrix) (hm : Wf m) : multP m (idMat m.cols) = m := by
  obtain ⟨har, hac, hal⟩ := hm
  obtain ⟨p1, p2, p3, p4, p5⟩ := multP_props m (idMat m.cols) har (by rw [idMat_cols]; exact hac)
  apply matrix_eq_of_getD (by rw [p1]) (by rw [p2]; rfl) (by rw [p3, hal]; rfl)
  intro k hk
  rw [p3] at hk
  rw [p4 k hk]
  rw [show (idMat m.cols).cols = m.cols from rfl] at hk
  have hdiv : k / m.rows < m.cols := by
    rw [Nat.div_lt_iff_lt_mul har]
    have hcm : m.cols * m.rows = m.rows * m.cols := Nat.mul_comm ..
    omega
  rw [dot_idMat_right hac m rfl hdiv, getD_eq_ent m k har]

/-- C6: multiplying by the generalized identity on the left
(`identity(rows, rows) * M`) or on the right (`M * identity(cols, cols)`)
returns `M` itself, under the library's exact elementwise equality. -/
theorem identity_mult_laws (m : Matrix) (hm : Wf m) :
    (∃ idl, Matrix.identity m.rows m.rows = .ok idl
      ∧ idl.multiplied_by_matrix m = .ok m)
    ∧ (∃ idr, Matrix.identity m.cols m.cols = .ok idr
      ∧ m.multiplied_by_matrix idr = .ok m) := by
  obtain ⟨har, hac, hal⟩ := hm
  constructor
  · refine ⟨idMat m.rows, identity_ok m.rows m.rows har har, ?_⟩
    have hw : Wf (idMat m.rows) := ⟨har, har, idMat_length m.rows har⟩
    rw [multiplied_by_matrix_ok (idMat m.rows) m hw ⟨har, hac, hal⟩ rfl,
      multP_idMat_left m ⟨har, hac, hal⟩]
  · refine ⟨idMat m.cols, identity_ok m.cols m.cols hac hac, ?_⟩
    have hw : Wf (idMat m.cols) := ⟨hac, hac, idMat_length m.cols hac⟩
    rw [multiplied_by_matrix_ok m (idMat m.cols) ⟨har, hac, hal⟩ hw rfl,
      multP_idMat_right m ⟨har, hac, hal⟩]

/-- Witness for C6 on a concrete `2 × 3` matrix. -/
theorem identity_mult_laws_witness :
    (∃ idl, Matrix.identity 2 2 = .ok idl
      ∧ idl.multiplied_by_matrix ⟨2, 3, [1, 2, 3, 4, 5, 6]⟩ = .ok ⟨2, 3, [1, 2, 3, 4, 5, 6]⟩)
    ∧ (∃ idr, Matrix.identity 3 3 = .ok idr
      ∧ Matrix.multiplied_by_matrix ⟨2, 3, [1, 2, 3, 4, 5, 6]⟩ idr
          = .ok ⟨2, 3, [1, 2, 3, 4, 5, 6]⟩) :=
  identity_mult_laws ⟨2, 3, [1, 2, 3, 4, 5, 6]⟩ (by decide)

/-- C7: `transposed` never fails: it returns the `cols × rows` matrix with
entry `(j, i)` equal to `a[i, j]`, and transposing twice gives back `a`. -/
theorem transposed_characterization (a : Matrix) (ha : Wf a) :
    ∃ t, a.transposed = .ok t ∧ t.rows = a.cols ∧ t.cols = a.rows
      ∧ (∀ i j, i < a.rows → j < a.cols → ent t j i = ent a i j)
      ∧ t.transposed = .ok a := by
  obtain ⟨t1, t2, t3, t4, t5⟩ := transP_props a ha.1 ha.2.1
  refine ⟨transP a, transposed_ok a ha, t1, t2, t5, ?_⟩
  have hwt : Wf (transP a) := ⟨by rw [t1]; exact ha.2.1, by rw [t2]; exact ha.1,
    by rw [t3, t1, t2]⟩
  rw [transposed_ok (transP a) hwt, transP_transP a ha]

/-- Witness for C7 on a concrete `2 × 3` matrix. -/
theorem transposed_characterization_witness :
    ∃ t, Matrix.transposed ⟨2, 3, [1, 2, 3, 4, 5, 6]⟩ = .ok t ∧ t.rows = 3 ∧ t.cols = 2
      ∧ (∀ i j, i < 2 → j < 3 → ent t j i = ent ⟨2, 3, [1, 2, 3, 4, 5, 6]⟩ i j)
      ∧ t.transposed = .ok ⟨2, 3, [1, 2, 3, 4, 5, 6]⟩ :=
  transposed_characterization ⟨2, 3, [1, 2, 3, 4, 5, 6]⟩ (by decide)

end MWR

namespace MWR


lemma Wfm.toWf {n : Nat} {a : Matrix} (hn : 0 < n) (h : Wfm n a) : Wf a :=
  ⟨by rw [h.1]; exact hn, by rw [h.2.1]; exact hn, by rw [h.2.2, h.1, h.2.1]⟩

lemma idMat_wfm (n : Nat) (hn : 0 < n) : Wfm n (idMat n) :=
  ⟨rfl, rfl, idMat_length n hn⟩

lemma setEnt_wfm {n : Nat} {a : Matrix} (h : Wfm n a) (r c : Nat) (v : ℚ) :
    Wfm n (setEnt a r c v) := ⟨h.1, h.2.1, by rw [setEnt_length, h.2.2]⟩

lemma elimStepP_wfm {n : Nat} (hn : 0 < n) {st : Matrix × Matrix} (i j : Nat)
    (hl : Wfm n st.1) (hu : Wfm n st.2) :
    Wfm n (elimStepP n st i j).1 ∧ Wfm n (elimStepP n st i j).2 := by
  unfold elimStepP
  constructor
  · exact setEnt_wfm hl i j _
  · have htmp : Wfm n (setEnt (idMat n) i j (-(ent st.2 i j / ent st.2 j j))) :=
      setEnt_wfm (idMat_wfm n hn) i j _
    obtain ⟨p1, p2, p3, _, _⟩ := multP_props (setEnt (idMat n) i j
      (-(ent st.2 i j / ent st.2 j j))) st.2
      (by rw [htmp.1]; exact hn) (by rw [hu.2.1]; exact hn)
    exact ⟨by rw [p1, htmp.1], by rw [p2, hu.2.1], by rw [p3, htmp.1, hu.2.1]⟩

lemma get_value_wfm {n : Nat} {a : Matrix} (h : Wfm n a) {r c : Nat}
    (hr : r < n) (hc : c < n) : a.get_value r c = .ok (ent a r c) :=
  get_value_wf (by rw [h.2.2, h.1, h.2.1]) (by rw [h.1]; exact hr) (by rw [h.2.1]; exact hc)

lemma set_value_wfm {n : Nat} {a : Matrix} (h : Wfm n a) {r c : Nat} (v : ℚ)
    (hr : r < n) (hc : c < n) : a.set_value r c v = .ok (setEnt a r c v) :=
  set_value_wf (by rw [h.2.2, h.1, h.2.1]) (by rw [h.1]; exact hr) (by rw [h.2.1]; exact hc)

lemma decomposeStep_zero {m : Matrix} {n : Nat} {st : Matrix × Matrix} {i j : Nat}
    (hu : Wfm n st.2) (hi : i < n) (hj : j < n)
    (hpiv : ent st.2 j j = 0) :
    m.decomposeStep st i j = .err ⟨.FailedToDecompose, "Found zero"⟩ := by
  unfold Matrix.decomposeStep
  rw [get_value_wfm hu hi hj, bind_ok, get_value_wfm hu hj hj, bind_ok, if_pos hpiv]

lemma decomposeStep_ok {m : Matrix} {n : Nat} (hn : 0 < n)
    (hmr : m.rows = n) (hmc : m.cols = n) {st : Matrix × Matrix} {i j : Nat}
    (hl : Wfm n st.1) (hu : Wfm n st.2) (hi : i < n) (hj : j < n)
    (hpiv : ent st.2 j j ≠ 0) :
    m.decomposeStep st i j = .ok (elimStepP n st i j) := by
  unfold Matrix.decomposeStep
  rw [get_value_wfm hu hi hj, bind_ok, get_value_wfm hu hj hj, bind_ok, if_neg hpiv]
  show (do
    let l2 ← st.1.set_value i j (ent st.2 i j / ent st.2 j j)
    let tmp ← Matrix.identity m.rows m.cols
    let tmp2 ← tmp.set_value i j (-(ent st.2 i j / ent st.2 j j))
    let u2 ← tmp2.multiplied_by_matrix st.2
    pure (l2, u2)) = Outcome.ok (elimStepP n st i j)
  rw [set_value_wfm hl _ hi hj, bind_ok]
  rw [hmr, hmc, identity_ok n n hn hn]
  rw [show (⟨n, n, identityData n n⟩ : Matrix) = idMat n from rfl, bind_ok]
  rw [set_value_wfm (idMat_wfm n hn) _ hi hj, bind_ok]
  rw [multiplied_by_matrix_ok _ st.2 ((setEnt_wfm (idMat_wfm n hn) i j _).toWf hn)
    (hu.toWf hn) (by rw [(setEnt_wfm (idMat_wfm n hn) i j _).2.1, hu.1]), bind_ok]
  rfl

lemma algoStep_zero {m : Matrix} {n : Nat} {st : Matrix × Matrix} {i j : Nat}
    (hu : Wfm n st.2) (hi : i < n) (hj : j < n)
    (hpiv : ent st.2 j j = 0) :
    algorithms.algoStep m st i j = .err ⟨.FailedToDecompose, "Found zero"⟩ := by
  unfold algorithms.algoStep
  rw [get_value_wfm hu hi hj, unwrapO_ok, bind_ok, get_value_wfm hu hj hj, unwrapO_ok,
    bind_ok, if_pos hpiv]

lemma algoStep_ok {m : Matrix} {n : Nat} (hn : 0 < n)
    (hmr : m.rows = n) (hmc : m.cols = n) {st : Matrix × Matrix} {i j : Nat}
    (hl : Wfm n st.1) (hu : Wfm n st.2) (hi : i < n) (hj : j < n)
    (hpiv : ent st.2 j j ≠ 0) :
    algorithms.algoStep m st i j = .ok (elimStepP n st i j) := by
  unfold algorithms.algoStep
  rw [get_value_wfm hu hi hj, unwrapO_ok, bind_ok, get_value_wfm hu hj hj, unwrapO_ok,
    bind_ok, if_neg hpiv]
  show (do
    let l2 ← unwrapO (st.1.set_value i j (ent st.2 i j / ent st.2 j j))
    let tmp ← unwrapO (Matrix.identity m.rows m.cols)
    let tmp2 ← unwrapO (tmp.set_value i j (-(ent st.2 i j / ent st.2 j j)))
    let u2 ← unwrapO (tmp2.multiplied_by_matrix st.2)
    pure (l2, u2)) = Outcome.ok (elimStepP n st i j)
  rw [set_value_wfm hl _ hi hj, unwrapO_ok, bind_ok]
  rw [hmr, hmc, identity_ok n n hn hn]
  rw [show (⟨n, n, identityData n n⟩ : Matrix) = idMat n from rfl, unwrapO_ok, bind_ok]
  rw [set_value_wfm (idMat_wfm n hn) _ hi hj, unwrapO_ok, bind_ok]
  rw [multiplied_by_matrix_ok _ st.2 ((setEnt_wfm (idMat_wfm n hn) i j _).toWf hn)
    (hu.toWf hn) (by rw [(setEnt_wfm (idMat_wfm n hn) i j _).2.1, hu.1]), unwrapO_ok, bind_ok]
  rfl

end MWR

namespace MWR

lemma elimRowP_succ (n : Nat) (st : Matrix × Matrix) (i J : Nat) :
    elimRowP n st i (J + 1) = elimStepP n (elimRowP n st i J) i J := by
  unfold elimRowP
  rw [List.range_succ, List.foldl_append, List.foldl_cons, List.foldl_nil]

lemma elimRowsP_succ (n : Nat) (m : Matrix) (K : Nat) :
    elimRowsP n m (K + 1) = elimRowP n (elimRowsP n m K) (1 + K) (1 + K) := by
  unfold elimRowsP
  have h1 : List.range' 1 (K + 1) = List.range' 1 K ++ [1 + K] := by
    rw [List.range'_concat]
    norm_num
  rw [h1, List.foldl_append, List.foldl_cons, List.foldl_nil]

lemma inner_dichotomy {n : Nat} (hn : 0 < n)
    (stepF : Matrix × Matrix → Nat → Nat → Outcome (Matrix × Matrix))
    (hok : ∀ st i j, i < n → j < n → Wfm n st.1 → Wfm n st.2 → ent st.2 j j ≠ 0 →
      stepF st i j = .ok (elimStepP n st i j))
    (hzero : ∀ st i j, i < n → j < n → Wfm n st.1 → Wfm n st.2 → ent st.2 j j = 0 →
      stepF st i j = .err ⟨.FailedToDecompose, "Found zero"⟩)
    {i : Nat} (hi : i < n) :
    ∀ J, J ≤ i → ∀ st : Matrix × Matrix, Wfm n st.1 → Wfm n st.2 →
      ((∀ j', j' < J → ent (elimRowP n st i j').2 j' j' ≠ 0)
        ∧ (List.range J).foldlM (fun s j => stepF s i j) st = .ok (elimRowP n st i J)
        ∧ Wfm n (elimRowP n st i J).1 ∧ Wfm n (elimRowP n st i J).2)
      ∨ ((∃ j', j' < J ∧ ent (elimRowP n st i j').2 j' j' = 0)
        ∧ (List.range J).foldlM (fun s j => stepF s i j) st
            = .err ⟨.FailedToDecompose, "Found zero"⟩) := by
  intro J
  induction J with
  | zero =>
    intro _ st hl hu
    exact Or.inl ⟨fun j' hj' => absurd hj' (Nat.not_lt_zero j'), rfl, hl, hu⟩
  | succ J ih =>
    intro hJ st hl hu
    have hJi : J < i := hJ
    have hfold : (List.range (J + 1)).foldlM (fun s j => stepF s i j) st
        = ((List.range J).foldlM (fun s j => stepF s i j) st) >>= fun s => stepF s i J := by
      rw [List.range_succ, List.foldlM_append]
      congr 1
      funext s
      rw [List.foldlM_cons]
      cases stepF s i J <;> rfl
    rcases ih (by omega) st hl hu with ⟨hall, hrun, hwl, hwu⟩ | ⟨hex, hrun⟩
    · by_cases hz : ent (elimRowP n st i J).2 J J = 0
      · refine Or.inr ⟨⟨J, Nat.lt_succ_self J, hz⟩, ?_⟩
        rw [hfold, hrun, bind_ok, hzero _ i J hi (by omega) hwl hwu hz]
      · refine Or.inl ⟨?_, ?_, ?_, ?_⟩
        · intro j' hj'
          rcases Nat.lt_or_ge j' J with h | h
          · exact hall j' h
          · have : j' = J := by omega
            rw [this]
            exact hz
        · rw [hfold, hrun, bind_ok, hok _ i J hi (by omega) hwl hwu hz, elimRowP_succ]
        · rw [elimRowP_succ]
          exact (elimStepP_wfm hn i J hwl hwu).1
        · rw [elimRowP_succ]
          exact (elimStepP_wfm hn i J hwl hwu).2
    · refine Or.inr ⟨⟨hex.choose, Nat.lt_succ_of_lt hex.choose_spec.1, hex.choose_spec.2⟩, ?_⟩
      rw [hfold, hrun]
      rfl

lemma outer_dichotomy {n : Nat} (hn : 0 < n)
    (stepF : Matrix × Matrix → Nat → Nat → Outcome (Matrix × Matrix))
    (hok : ∀ st i j, i < n → j < n → Wfm n st.1 → Wfm n st.2 → ent st.2 j j ≠ 0 →
      stepF st i j = .ok (elimStepP n st i j))
    (hzero : ∀ st i j, i < n → j < n → Wfm n st.1 → Wfm n st.2 → ent st.2 j j = 0 →
      stepF st i j = .err ⟨.FailedToDecompose, "Found zero"⟩)
    (m : Matrix) (hm : Wfm n m) :
    ∀ K, K ≤ n - 1 →
      ((∀ i' j', 1 ≤ i' → i' ≤ K → j' < i' →
          ent (elimRowP n (elimRowsP n m (i' - 1)) i' j').2 j' j' ≠ 0)
        ∧ (List.range' 1 K).foldlM
            (fun st i => (List.range i).foldlM (fun s j => stepF s i j) st) (idMat n, m)
          = .ok (elimRowsP n m K)
        ∧ Wfm n (elimRowsP n m K).1 ∧ Wfm n (elimRowsP n m K).2)
      ∨ ((∃ i' j', 1 ≤ i' ∧ i' ≤ K ∧ j' < i'
          ∧ ent (elimRowP n (elimRowsP n m (i' - 1)) i' j').2 j' j' = 0)
        ∧ (List.range' 1 K).foldlM
            (fun st i => (List.range i).foldlM (fun s j => stepF s i j) st) (idMat n, m)
          = .err ⟨.FailedToDecompose, "Found zero"⟩) := by
  intro K
  induction K with
  | zero =>
    intro _
    exact Or.inl ⟨fun i' j' h1 h2 _ => absurd (Nat.le_trans h1 h2) (by omega),
      rfl, idMat_wfm n hn, hm⟩
  | succ K ih =>
    intro hK
    have hKn : K + 1 < n := by omega
    have h1 : List.range' 1 (K + 1) = List.range' 1 K ++ [1 + K] := by
      rw [List.range'_concat]
      norm_num
    have hfold : (List.range' 1 (K + 1)).foldlM
        (fun st i => (List.range i).foldlM (fun s j => stepF s i j) st) (idMat n, m)
        = ((List.range' 1 K).foldlM
            (fun st i => (List.range i).foldlM (fun s j => stepF s i j) st) (idMat n, m))
          >>= fun st => (List.range (1 + K)).foldlM (fun s j => stepF s (1 + K) j) st := by
      rw [h1, List.foldlM_append]
      congr 1
      funext st
      rw [List.foldlM_cons]
      cases (List.range (1 + K)).foldlM (fun s j => stepF s (1 + K) j) st <;> rfl
    rcases ih (by omega) with ⟨hall, hrun, hwl, hwu⟩ | ⟨hex, hrun⟩
    · have hinner := inner_dichotomy hn stepF hok hzero
        (show 1 + K < n by omega) (1 + K) (le_refl _)
        (elimRowsP n m K) hwl hwu
      rcases hinner with ⟨iall, irun, iwl, iwu⟩ | ⟨iex, irun⟩
      · refine Or.inl ⟨?_, ?_, ?_, ?_⟩
        · intro i' j' h1 h2 hj'
          rcases Nat.lt_or_ge i' (K + 1) with h | h
          · exact hall i' j' h1 (by omega) hj'
          · have hieq : i' = K + 1 := by omega
            subst hieq
            have : (K + 1 : Nat) - 1 = K := by omega
            rw [this]
            have h1K : (K + 1 : Nat) = 1 + K := by omega
            rw [h1K]
            exact iall j' (by omega)
        · rw [hfold, hrun, bind_ok, irun, elimRowsP_succ]
        · rw [elimRowsP_succ]
          exact iwl
        · rw [elimRowsP_succ]
          exact iwu
      · refine Or.inr ⟨⟨1 + K, iex.choose, by omega, by omega, iex.choose_spec.1, ?_⟩, ?_⟩
        · have : (1 + K : Nat) - 1 = K := by omega
          rw [this]
          exact iex.choose_spec.2
        · rw [hfold, hrun, bind_ok, irun]
    · refine Or.inr ⟨⟨hex.choose, hex.choose_spec.choose, hex.choose_spec.choose_spec.1,
        by omega, hex.choose_spec.choose_spec.2.2.1, hex.choose_spec.choose_spec.2.2.2⟩, ?_⟩
      rw [hfold, hrun]
      rfl

end MWR

namespace MWR

lemma hitsZeroPivot_iff (m : Matrix) (hn : 0 < m.rows) :
    hitsZeroPivot m = true
      ↔ ∃ i j, 1 ≤ i ∧ i ≤ m.rows - 1 ∧ j < i
          ∧ ent (elimRowP m.rows (elimRowsP m.rows m (i - 1)) i j).2 j j = 0 := by
  unfold hitsZeroPivot decomposePivot
  simp only [List.any_eq_true, List.mem_range, decide_eq_true_eq]
  constructor
  · rintro ⟨i, hi, j, hj, hz⟩
    exact ⟨i, j, by omega, by omega, hj, hz⟩
  · rintro ⟨i, j, h1, h2, h3, h4⟩
    exact ⟨i, by omega, j, h3, h4⟩

lemma decompose_run (m : Matrix) (hsq : m.rows = m.cols) (hn : 0 < m.rows)
    (hlen : m.data.length = m.rows * m.rows) :
    (hitsZeroPivot m = true →
      m.decompose = .err ⟨.FailedToDecompose, "Found zero"⟩
      ∧ algorithms.decompose m = .err ⟨.FailedToDecompose, "Found zero"⟩)
    ∧ (hitsZeroPivot m = false →
      m.decompose = .ok (elimRowsP m.rows m (m.rows - 1))
      ∧ algorithms.decompose m = .ok (elimRowsP m.rows m (m.rows - 1))
      ∧ Wfm m.rows (elimRowsP m.rows m (m.rows - 1)).1
      ∧ Wfm m.rows (elimRowsP m.rows m (m.rows - 1)).2) := by
  have hm : Wfm m.rows m := ⟨rfl, hsq.symm, hlen⟩
  have hdec : m.decompose = (List.range' 1 (m.rows - 1)).foldlM
      (fun st i => (List.range i).foldlM (fun s j => m.decomposeStep s i j) st)
      (idMat m.rows, m) := by
    unfold Matrix.decompose Matrix.get_size
    dsimp only
    rw [if_neg (fun hne => hne hsq), ← hsq, identity_ok m.rows m.rows hn hn]
    rw [show (⟨m.rows, m.rows, identityData m.rows m.rows⟩ : Matrix) = idMat m.rows from rfl,
      bind_ok]
  have halgo : algorithms.decompose m = (List.range' 1 (m.rows - 1)).foldlM
      (fun st i => (List.range i).foldlM (fun s j => algorithms.algoStep m s i j) st)
      (idMat m.rows, m) := by
    unfold algorithms.decompose Matrix.get_size
    dsimp only
    rw [← hsq, identity_ok m.rows m.rows hn hn]
    rw [show (⟨m.rows, m.rows, identityData m.rows m.rows⟩ : Matrix) = idMat m.rows from rfl,
      unwrapO_ok, bind_ok]
  have hd1 := outer_dichotomy hn (fun s i j => m.decomposeStep s i j)
    (fun st i j hi hj hwl hwu hpiv => decomposeStep_ok hn rfl hsq.symm hwl hwu hi hj hpiv)
    (fun st i j hi hj hwl hwu hpiv => decomposeStep_zero hwu hi hj hpiv)
    m hm (m.rows - 1) (le_refl _)
  have hd2 := outer_dichotomy hn (fun s i j => algorithms.algoStep m s i j)
    (fun st i j hi hj hwl hwu hpiv => algoStep_ok hn rfl hsq.symm hwl hwu hi hj hpiv)
    (fun st i j hi hj hwl hwu hpiv => algoStep_zero hwu hi hj hpiv)
    m hm (m.rows - 1) (le_refl _)
  constructor
  · intro htrue
    obtain ⟨i, j, h1, h2, h3, hz⟩ := (hitsZeroPivot_iff m hn).mp htrue
    constructor
    · rcases hd1 with ⟨hall, _, _, _⟩ | ⟨_, hrun⟩
      · exact absurd hz (hall i j h1 h2 h3)
      · exact hdec.trans hrun
    · rcases hd2 with ⟨hall, _, _, _⟩ | ⟨_, hrun⟩
      · exact absurd hz (hall i j h1 h2 h3)
      · exact halgo.trans hrun
  · intro hfalse
    rcases hd1 with ⟨_, hrun, hwl, hwu⟩ | ⟨hex, _⟩
    · rcases hd2 with ⟨_, hrun2, _, _⟩ | ⟨hex2, _⟩
      · exact ⟨hdec.trans hrun, halgo.trans hrun2, hwl, hwu⟩
      · exfalso
        obtain ⟨i, j, e1, e2, e3, e4⟩ := hex2
        have := (hitsZeroPivot_iff m hn).mpr ⟨i, j, e1, e2, e3, e4⟩
        rw [hfalse] at this
        exact Bool.noConfusion this
    · exfalso
      obtain ⟨i, j, e1, e2, e3, e4⟩ := hex
      have := (hitsZeroPivot_iff m hn).mpr ⟨i, j, e1, e2, e3, e4⟩
      rw [hfalse] at this
      exact Bool.noConfusion this

end MWR

namespace MWR

lemma invert_propagates_decompose_err (m : Matrix) (e : MathMatrixError)
    (he : m.decompose = .err e) : m.invert = .err e := by
  unfold Matrix.invert
  rw [he]
  rfl

/-- C10: on square well-formed matrices the free function `decompose` of
src/src/algorithms.rs and the method `Matrix::decompose` return identical
results: the same `(L, U)` pair on success and the same
`FailedToDecompose`/`"Found zero"` error on a zero pivot. -/
theorem method_free_decompose_agree (m : Matrix) (hsq : m.rows = m.cols)
    (hn : 0 < m.rows) (hlen : m.data.length = m.rows * m.rows) :
    algorithms.decompose m = m.decompose := by
  obtain ⟨ht, hf⟩ := decompose_run m hsq hn hlen
  cases hb : hitsZeroPivot m
  · obtain ⟨h1, h2, _, _⟩ := hf hb
    rw [h1, h2]
  · obtain ⟨h1, h2⟩ := ht hb
    rw [h1, h2]

/-- Witness for C10 on a concrete `2 × 2` matrix. -/
theorem method_free_decompose_agree_witness :
    algorithms.decompose ⟨2, 2, [1, 2, 3, 4]⟩ = Matrix.decompose ⟨2, 2, [1, 2, 3, 4]⟩ :=
  method_free_decompose_agree ⟨2, 2, [1, 2, 3, 4]⟩ rfl (by decide) rfl

/-- C8: `decompose(M)` fails with `OperationNotPermitted` iff `M` is not
square, and `invert(M)` propagates any error of its internal `decompose`
call unchanged. -/
theorem decompose_nonsquare_and_invert_propagation (m : Matrix) (hn : 0 < m.rows)
    (_hc : 0 < m.cols) (hlen : m.data.length = m.rows * m.cols) :
    ((∃ e, m.decompose = .err e ∧ e.kind = .OperationNotPermitted) ↔ m.rows ≠ m.cols)
    ∧ (∀ e, m.decompose = .err e → m.invert = .err e) := by
  refine ⟨⟨?_, ?_⟩, fun e he => invert_propagates_decompose_err m e he⟩
  · rintro ⟨e, he, hkind⟩
    intro hsq
    have hlen2 : m.data.length = m.rows * m.rows := by rw [hlen, ← hsq]
    obtain ⟨ht, hf⟩ := decompose_run m hsq hn hlen2
    cases hb : hitsZeroPivot m
    · obtain ⟨h1, _, _, _⟩ := hf hb
      rw [h1] at he
      exact Outcome.noConfusion he
    · obtain ⟨h1, _⟩ := ht hb
      rw [h1] at he
      have he2 := (Outcome.err.injEq _ _).mp he
      rw [← he2] at hkind
      exact MathMatrixErrorKind.noConfusion hkind
  · intro hne
    refine ⟨⟨.OperationNotPermitted, "LU decomposition allowed only for square matrices"⟩, ?_, rfl⟩
    unfold Matrix.decompose Matrix.get_size
    dsimp only
    rw [if_pos hne]

/-- Witness for C8: a non-square `2 × 3` matrix makes `decompose` fail with
`OperationNotPermitted` and `invert` returns that same error. -/
theorem decompose_nonsquare_and_invert_propagation_witness :
    (∃ e, (⟨2, 3, [1, 2, 3, 4, 5, 6]⟩ : Matrix).decompose = .err e
      ∧ e.kind = .OperationNotPermitted)
    ∧ (⟨2, 3, [1, 2, 3, 4, 5, 6]⟩ : Matrix).invert
        = .err ⟨.OperationNotPermitted, "LU decomposition allowed only for square matrices"⟩ :=
  ⟨(decompose_nonsquare_and_invert_propagation ⟨2, 3, [1, 2, 3, 4, 5, 6]⟩
      (by decide) (by decide) (by decide)).1.mpr (by decide),
   (decompose_nonsquare_and_invert_propagation ⟨2, 3, [1, 2, 3, 4, 5, 6]⟩
      (by decide) (by decide) (by decide)).2
      ⟨.OperationNotPermitted, "LU decomposition allowed only for square matrices"⟩ (by decide)⟩

end MWR

namespace MWR

lemma sumTo_add (n : Nat) (f g : Nat → ℚ) :
    sumTo n (fun k => f k + g k) = sumTo n f + sumTo n g := by
  unfold sumTo
  exact Finset.sum_add_distrib

lemma sumTo_mul_ite {n i : Nat} (hi : i < n) (f : Nat → ℚ) (A : ℚ) :
    sumTo n (fun k => f k * (if k = i then A else 0)) = f i * A := by
  unfold sumTo
  have h : ∀ t ∈ Finset.range n, f t * (if t = i then A else 0)
      = if t = i then f t * A else 0 := fun t _ => by split_ifs <;> ring
  rw [Finset.sum_congr rfl h, Finset.sum_ite_eq', if_pos (Finset.mem_range.mpr hi)]

lemma sumTo_ite_mul {n j : Nat} (hj : j < n) (g : Nat → ℚ) (B : ℚ) :
    sumTo n (fun k => (if k = j then B else 0) * g k) = B * g j := by
  unfold sumTo
  have h : ∀ t ∈ Finset.range n, (if t = j then B else 0) * g t
      = if t = j then B * g t else 0 := fun t _ => by split_ifs <;> ring
  rw [Finset.sum_congr rfl h, Finset.sum_ite_eq', if_pos (Finset.mem_range.mpr hj)]

lemma sumTo_zero (n : Nat) : sumTo n (fun _ => (0 : ℚ)) = 0 := by
  unfold sumTo
  exact Finset.sum_const_zero

lemma ent_elimStepP_fst {n : Nat} {st : Matrix × Matrix} {i j : Nat} (hl : Wfm n st.1)
    (hi : i < n) (hj : j < n) {r c : Nat} (hr : r < n) :
    ent (elimStepP n st i j).1 r c
      = if r = i ∧ c = j then ent st.2 i j / ent st.2 j j else ent st.1 r c := by
  unfold elimStepP
  dsimp only
  exact ent_setEnt st.1 i j _ r c (by rw [hl.1]; exact hi) (by rw [hl.1]; exact hr)
    (by rw [hl.2.2, hl.1]; exact idx_lt hi hj)

lemma ent_elimStepP_snd {n : Nat} (hn : 0 < n) {st : Matrix × Matrix} {i j : Nat}
    (hu : Wfm n st.2) (hi : i < n) (hj : j < n) (hij : i ≠ j) {r c : Nat}
    (hr : r < n) (hc : c < n) :
    ent (elimStepP n st i j).2 r c
      = ent st.2 r c
        + (if r = i then -(ent st.2 i j / ent st.2 j j) * ent st.2 j c else 0) := by
  unfold elimStepP
  dsimp only
  have htmp : Wfm n (setEnt (idMat n) i j (-(ent st.2 i j / ent st.2 j j))) :=
    setEnt_wfm (idMat_wfm n hn) i j _
  obtain ⟨p1, p2, p3, p4, p5⟩ := multP_props
    (setEnt (idMat n) i j (-(ent st.2 i j / ent st.2 j j))) st.2
    (by rw [htmp.1]; exact hn) (by rw [hu.2.1]; exact hn)
  rw [p5 r c (by rw [htmp.1]; exact hr) (by rw [hu.2.1]; exact hc), dotP_eq_sumTo]
  rw [show (setEnt (idMat n) i j (-(ent st.2 i j / ent st.2 j j))).cols = n from htmp.2.1]
  have hidx : j * n + i < n * n := idx_lt hi hj
  have hent_tmp : ∀ k, k < n →
      ent (setEnt (idMat n) i j (-(ent st.2 i j / ent st.2 j j))) r k
        = (if r = k then 1 else 0)
          + (if r = i ∧ k = j then -(ent st.2 i j / ent st.2 j j) else 0) := by
    intro k hk
    rw [ent_setEnt (idMat n) i j _ r k (by exact hi) (by exact hr)
      (by rw [idMat_length n hn]; exact hidx)]
    by_cases hrk : r = i ∧ k = j
    · rw [if_pos hrk, if_pos hrk,
        if_neg (show ¬ r = k by rintro rfl; exact hij (hrk.1.symm.trans hrk.2))]
      ring
    · rw [if_neg hrk, if_neg hrk, ent_idMat hn hr hk, add_zero]
  have hcong : sumTo n (fun k =>
      ent (setEnt (idMat n) i j (-(ent st.2 i j / ent st.2 j j))) r k * ent st.2 k c)
      = sumTo n (fun k =>
        (if r = k then 1 else 0) * ent st.2 k c
        + (if r = i ∧ k = j then -(ent st.2 i j / ent st.2 j j) else 0) * ent st.2 k c) := by
    unfold sumTo
    refine Finset.sum_congr rfl (fun k hk => ?_)
    rw [hent_tmp k (Finset.mem_range.mp hk), add_mul]
  rw [hcong, sumTo_add, sumTo_delta_left hr (fun k => ent st.2 k c)]
  congr 1
  by_cases hri : r = i
  · subst hri
    have h2 : ∀ k, (if r = r ∧ k = j then -(ent st.2 r j / ent st.2 j j) else 0) * ent st.2 k c
        = (if k = j then -(ent st.2 r j / ent st.2 j j) else 0) * ent st.2 k c := by
      intro k
      by_cases hkj : k = j
      · rw [if_pos ⟨rfl, hkj⟩, if_pos hkj]
      · rw [if_neg (fun hh => hkj hh.2), if_neg hkj]
    rw [show (fun k => (if r = r ∧ k = j then -(ent st.2 r j / ent st.2 j j) else 0)
        * ent st.2 k c)
      = fun k => (if k = j then -(ent st.2 r j / ent st.2 j j) else 0) * ent st.2 k c
      from funext h2]
    rw [sumTo_ite_mul hj (fun k => ent st.2 k c), if_pos rfl]
  · have h2 : ∀ k, (if r = i ∧ k = j then -(ent st.2 i j / ent st.2 j j) else 0) * ent st.2 k c
        = 0 := by
      intro k
      rw [if_neg (fun hh => hri hh.1), zero_mul]
    rw [show (fun k => (if r = i ∧ k = j then -(ent st.2 i j / ent st.2 j j) else 0)
        * ent st.2 k c) = fun _ => (0 : ℚ) from funext h2]
    rw [sumTo_zero, if_neg hri]

end MWR

namespace MWR



lemma inv_step {n : Nat} {m : Matrix} (hn : 0 < n) {i j : Nat} (hi : i < n) (hj : j < i)
    {st : Matrix × Matrix} (hinv : Inv n m i j st) (hpiv : ent st.2 j j ≠ 0) :
    Inv n m i (j + 1) (elimStepP n st i j) := by
  obtain ⟨hwl, hwu, hdiag, hlzero, huzero, hprod⟩ := hinv
  have hjn : j < n := by omega
  have hij : i ≠ j := by omega
  have hLij : ent st.1 i j = 0 :=
    hlzero i j hj hi (by unfold proc; omega)
  have hl' : ∀ r c, r < n → ent (elimStepP n st i j).1 r c
      = if r = i ∧ c = j then ent st.2 i j / ent st.2 j j else ent st.1 r c :=
    fun r c hr => ent_elimStepP_fst hwl hi hjn hr
  have hu' : ∀ r c, r < n → c < n → ent (elimStepP n st i j).2 r c
      = ent st.2 r c
        + (if r = i then -(ent st.2 i j / ent st.2 j j) * ent st.2 j c else 0) :=
    fun r c hr hc => ent_elimStepP_snd hn hwu hi hjn hij hr hc
  refine ⟨(elimStepP_wfm hn i j hwl hwu).1, (elimStepP_wfm hn i j hwl hwu).2, ?_, ?_, ?_, ?_⟩
  · intro r c hr hc hrc
    rw [hl' r c hr, if_neg (by rintro ⟨rfl, rfl⟩; omega)]
    exact hdiag r c hr hc hrc
  · intro r c hcr hr hnp
    rw [hl' r c hr, if_neg (by rintro ⟨rfl, rfl⟩; exact hnp (Or.inr ⟨rfl, by omega⟩))]
    exact hlzero r c hcr hr (fun hp => hnp (by unfold proc at hp ⊢; omega))
  · intro r c hcr hr hp
    have hcn : c < n := by omega
    rw [hu' r c hr hcn]
    by_cases hri : r = i
    · subst hri
      rw [if_pos rfl]
      have hcj1 : c < j + 1 := by unfold proc at hp; omega
      by_cases hcj : c < j
      · rw [huzero r c hcr hr (by unfold proc; omega),
          huzero j c hcj hjn (by unfold proc; omega)]
        ring
      · have hceq : c = j := by omega
        subst hceq
        rw [neg_mul, div_mul_cancel₀ _ hpiv]
        ring
    · rw [if_neg hri]
      rw [add_zero]
      exact huzero r c hcr hr (by unfold proc at hp ⊢; omega)
  · intro r c hr hc
    have hstep : ∀ k, k < n →
        ent (elimStepP n st i j).1 r k * ent (elimStepP n st i j).2 k c
          = ent st.1 r k * ent st.2 k c
            + ent st.1 r k * (if k = i then
                -(ent st.2 i j / ent st.2 j j) * ent st.2 j c else 0)
            + (if r = i ∧ k = j then ent st.2 i j / ent st.2 j j else 0) * ent st.2 k c
            + (if r = i ∧ k = j then ent st.2 i j / ent st.2 j j else 0)
              * (if k = i then -(ent st.2 i j / ent st.2 j j) * ent st.2 j c else 0) := by
      intro k hk
      rw [hl' r k hr, hu' k c hk hc]
      by_cases hrk : r = i ∧ k = j
      · have hji : ¬ (j = i) := fun h => hij h.symm
        simp only [if_pos hrk]
        obtain ⟨hr1, hk1⟩ := hrk
        rw [hk1, hr1, hLij]
        simp only [if_neg hji]
        ring
      · simp only [if_neg hrk]
        ring
    have hcong : sumTo n (fun k =>
        ent (elimStepP n st i j).1 r k * ent (elimStepP n st i j).2 k c)
        = sumTo n (fun k => ent st.1 r k * ent st.2 k c
            + ent st.1 r k * (if k = i then
                -(ent st.2 i j / ent st.2 j j) * ent st.2 j c else 0)
            + (if r = i ∧ k = j then ent st.2 i j / ent st.2 j j else 0) * ent st.2 k c
            + (if r = i ∧ k = j then ent st.2 i j / ent st.2 j j else 0)
              * (if k = i then -(ent st.2 i j / ent st.2 j j) * ent st.2 j c else 0)) := by
      unfold sumTo
      exact Finset.sum_congr rfl (fun k hk => hstep k (Finset.mem_range.mp hk))
    rw [hcong, sumTo_add, sumTo_add, sumTo_add]
    rw [hprod r c hr hc]
    rw [sumTo_mul_ite hi (fun k => ent st.1 r k)
      (-(ent st.2 i j / ent st.2 j j) * ent st.2 j c)]
    have hLri : ent st.1 r i = if r = i then 1 else 0 := by
      rcases Nat.lt_trichotomy r i with h | h | h
      · exact hdiag r i hr hi (le_of_lt h)
      · subst h
        exact hdiag r r hr hr (le_refl r)
      · rw [hlzero r i h hr (by unfold proc; omega), if_neg (show ¬ r = i by omega)]
    have hsum3 : sumTo n (fun k =>
        (if r = i ∧ k = j then ent st.2 i j / ent st.2 j j else 0) * ent st.2 k c)
        = if r = i then (ent st.2 i j / ent st.2 j j) * ent st.2 j c else 0 := by
      by_cases hri : r = i
      · subst hri
        have h2 : ∀ k, (if r = r ∧ k = j then ent st.2 r j / ent st.2 j j else 0)
            * ent st.2 k c
            = (if k = j then ent st.2 r j / ent st.2 j j else 0) * ent st.2 k c := by
          intro k
          by_cases hkj : k = j
          · rw [if_pos ⟨rfl, hkj⟩, if_pos hkj]
          · rw [if_neg (fun hh => hkj hh.2), if_neg hkj]
        rw [show (fun k => (if r = r ∧ k = j then ent st.2 r j / ent st.2 j j else 0)
            * ent st.2 k c)
          = fun k => (if k = j then ent st.2 r j / ent st.2 j j else 0) * ent st.2 k c
          from funext h2]
        rw [sumTo_ite_mul hjn (fun k => ent st.2 k c), if_pos rfl]
      · have h2 : ∀ k, (if r = i ∧ k = j then ent st.2 i j / ent st.2 j j else 0)
            * ent st.2 k c = 0 := by
          intro k
          rw [if_neg (fun hh => hri hh.1), zero_mul]
        rw [show (fun k => (if r = i ∧ k = j then ent st.2 i j / ent st.2 j j else 0)
            * ent st.2 k c) = fun _ => (0 : ℚ) from funext h2]
        rw [sumTo_zero, if_neg hri]
    have hsum4 : sumTo n (fun k =>
        (if r = i ∧ k = j then ent st.2 i j / ent st.2 j j else 0)
          * (if k = i then -(ent st.2 i j / ent st.2 j j) * ent st.2 j c else 0)) = 0 := by
      have h2 : ∀ k, (if r = i ∧ k = j then ent st.2 i j / ent st.2 j j else 0)
          * (if k = i then -(ent st.2 i j / ent st.2 j j) * ent st.2 j c else 0) = 0 := by
        intro k
        by_cases hkj : r = i ∧ k = j
        · rw [if_neg (show ¬ k = i by rw [hkj.2]; omega), mul_zero]
        · rw [if_neg hkj, zero_mul]
      rw [show (fun k => (if r = i ∧ k = j then ent st.2 i j / ent st.2 j j else 0)
          * (if k = i then -(ent st.2 i j / ent st.2 j j) * ent st.2 j c else 0))
        = fun _ => (0 : ℚ) from funext h2]
      exact sumTo_zero n
    rw [hsum3, hsum4, hLri]
    by_cases hri : r = i
    · simp only [if_pos hri]
      ring
    · simp only [if_neg hri]
      ring

end MWR

namespace MWR

lemma inv_init {n : Nat} (hn : 0 < n) {m : Matrix} (hm : Wfm n m) :
    Inv n m 1 0 (idMat n, m) := by
  refine ⟨idMat_wfm n hn, hm, ?_, ?_, ?_, ?_⟩
  · intro r c hr hc _
    exact ent_idMat hn hr hc
  · intro r c hcr hr _
    rw [ent_idMat hn hr (by omega), if_neg (by omega)]
  · intro r c hcr hr hp
    exfalso
    unfold proc at hp
    omega
  · intro r c hr hc
    have hcong : sumTo n (fun k => ent (idMat n, m).1 r k * ent (idMat n, m).2 k c)
        = sumTo n (fun k => (if r = k then 1 else 0) * ent m k c) := by
      unfold sumTo
      exact Finset.sum_congr rfl (fun k hk => by
        rw [show ent (idMat n, m).1 r k = ent (idMat n) r k from rfl,
          ent_idMat hn hr (Finset.mem_range.mp hk)])
    rw [hcong, sumTo_delta_left hr (fun k => ent m k c)]

lemma inv_row {n : Nat} {m : Matrix} (hn : 0 < n) {i : Nat} (hi : i < n) :
    ∀ J, J ≤ i → ∀ st, Inv n m i 0 st →
      (∀ j', j' < J → ent (elimRowP n st i j').2 j' j' ≠ 0) →
      Inv n m i J (elimRowP n st i J) := by
  intro J
  induction J with
  | zero =>
    intro _ st hinv _
    exact hinv
  | succ J ih =>
    intro hJ st hinv hpiv
    rw [elimRowP_succ]
    exact inv_step hn hi (by omega)
      (ih (by omega) st hinv (fun j' hj' => hpiv j' (by omega)))
      (hpiv J (Nat.lt_succ_self J))

lemma inv_row_shift {n : Nat} {m : Matrix} {i : Nat} {st : Matrix × Matrix}
    (h : Inv n m i i st) : Inv n m (i + 1) 0 st := by
  obtain ⟨h1, h2, h3, h4, h5, h6⟩ := h
  refine ⟨h1, h2, h3, ?_, ?_, h6⟩
  · intro r c hcr hr hnp
    exact h4 r c hcr hr (fun hp => hnp (by unfold proc at hp ⊢; omega))
  · intro r c hcr hr hp
    exact h5 r c hcr hr (by unfold proc at hp ⊢; omega)

lemma inv_rows {n : Nat} {m : Matrix} (hn : 0 < n) (hm : Wfm n m) :
    ∀ K, K ≤ n - 1 →
      (∀ i' j', 1 ≤ i' → i' ≤ K → j' < i' →
        ent (elimRowP n (elimRowsP n m (i' - 1)) i' j').2 j' j' ≠ 0) →
      Inv n m (K + 1) 0 (elimRowsP n m K) := by
  intro K
  induction K with
  | zero =>
    intro _ _
    exact inv_init hn hm
  | succ K ih =>
    intro hK hpiv
    rw [elimRowsP_succ]
    have hprev : Inv n m (K + 1) 0 (elimRowsP n m K) :=
      ih (by omega) (fun i' j' e1 e2 e3 => hpiv i' j' e1 (by omega) e3)
    have h1K : (1 + K : Nat) = K + 1 := by omega
    rw [h1K]
    apply inv_row_shift
    exact inv_row hn (by omega) (K + 1) (le_refl _) (elimRowsP n m K) hprev
      (fun j' hj' => by
        have := hpiv (K + 1) j' (by omega) (le_refl _) hj'
        have heq : (K + 1 : Nat) - 1 = K := by omega
        rw [heq] at this
        exact this)

end MWR

namespace MWR

/-- C3: on a square well-formed matrix, `decompose` fails with
`FailedToDecompose` if and only if the elimination, run in source order
(`i` from 1, `j` from 0 to `i-1`), reads a zero pivot `U[j,j]` at some step
(`hitsZeroPivot`); otherwise it returns `(L, U)` with `L` unit
lower-triangular, `U` upper-triangular, and `L * U` equal to the original
matrix (exactly, floats being modelled as exact rationals). -/
theorem decompose_characterization (m : Matrix) (hsq : m.rows = m.cols)
    (hn : 0 < m.rows) (hlen : m.data.length = m.rows * m.rows) :
    (hitsZeroPivot m = true →
      m.decompose = .err ⟨.FailedToDecompose, "Found zero"⟩)
    ∧ (hitsZeroPivot m = false →
      ∃ L U, m.decompose = .ok (L, U)
        ∧ L.rows = m.rows ∧ L.cols = m.rows ∧ U.rows = m.rows ∧ U.cols = m.rows
        ∧ (∀ r, r < m.rows → ent L r r = 1)
        ∧ (∀ r c, r < c → c < m.rows → ent L r c = 0)
        ∧ (∀ r c, c < r → r < m.rows → ent U r c = 0)
        ∧ (∀ r c, r < m.rows → c < m.rows →
            sumTo m.rows (fun k => ent L r k * ent U k c) = ent m r c)) := by
  obtain ⟨ht, hf⟩ := decompose_run m hsq hn hlen
  refine ⟨fun htrue => (ht htrue).1, fun hfalse => ?_⟩
  obtain ⟨hrun, _, _, _⟩ := hf hfalse
  have hm : Wfm m.rows m := ⟨rfl, hsq.symm, hlen⟩
  have hnz : ∀ i' j', 1 ≤ i' → i' ≤ m.rows - 1 → j' < i' →
      ent (elimRowP m.rows (elimRowsP m.rows m (i' - 1)) i' j').2 j' j' ≠ 0 := by
    intro i' j' e1 e2 e3 hz
    have := (hitsZeroPivot_iff m hn).mpr ⟨i', j', e1, e2, e3, hz⟩
    rw [hfalse] at this
    exact Bool.noConfusion this
  have hinv := inv_rows hn hm (m.rows - 1) (le_refl _) hnz
  have heq : (m.rows - 1) + 1 = m.rows := by omega
  rw [heq] at hinv
  obtain ⟨hwl, hwu, hdiag, _, huzero, hprod⟩ := hinv
  refine ⟨(elimRowsP m.rows m (m.rows - 1)).1, (elimRowsP m.rows m (m.rows - 1)).2,
    by rw [hrun], hwl.1, hwl.2.1, hwu.1, hwu.2.1, ?_, ?_, ?_, hprod⟩
  · intro r hr
    rw [hdiag r r hr hr (le_refl r), if_pos rfl]
  · intro r c hrc hc
    rw [hdiag r c (by omega) hc (by omega), if_neg (by omega)]
  · intro r c hcr hr
    exact huzero r c hcr hr (Or.inl hr)

/-- Witness for C3: the matrix `[[2,1],[1,1]]` has no zero pivot, so its
decomposition succeeds with the stated triangular shape and product law. -/
theorem decompose_characterization_witness :
    ∃ L U, (⟨2, 2, [2, 1, 1, 1]⟩ : Matrix).decompose = .ok (L, U)
      ∧ L.rows = 2 ∧ L.cols = 2 ∧ U.rows = 2 ∧ U.cols = 2
      ∧ (∀ r, r < 2 → ent L r r = 1)
      ∧ (∀ r c, r < c → c < 2 → ent L r c = 0)
      ∧ (∀ r c, c < r → r < 2 → ent U r c = 0)
      ∧ (∀ r c, r < 2 → c < 2 →
          sumTo 2 (fun k => ent L r k * ent U k c) = ent ⟨2, 2, [2, 1, 1, 1]⟩ r c) :=
  (decompose_characterization ⟨2, 2, [2, 1, 1, 1]⟩ rfl (by decide) rfl).2 (by decide)

end MWR

namespace MWR

set_option maxHeartbeats 1000000 in
/-- C2 evidence. -/
theorem invert_zero_divider_returns_ok :
    Matrix.decompose ⟨2, 2, [1, 1, 1, 1]⟩ = .ok (⟨2, 2, [1, 1, 0, 1]⟩, ⟨2, 2, [1, 0, 1, 0]⟩)
    ∧ ent ⟨2, 2, [1, 0, 1, 0]⟩ 1 1 = 0
    ∧ Matrix.invert ⟨2, 2, [1, 1, 1, 1]⟩ = .ok ⟨2, 2, [1, 0, 0, 0]⟩ := by
  norm_num [Matrix.invert, Matrix.decompose, Matrix.decomposeStep, Matrix.identity, Matrix.new,
    Matrix.get_value, Matrix.set_value, Matrix.set_value_ignore, Matrix.get_size,
    Matrix.multiplied_by_matrix, Matrix.zeros, identityData, ent,
    List.range, List.range.loop, List.range', List.replicate, List.foldlM]

end MWR
